import Mathlib

/-!
Verification of `bcbio/variation/genotype.py`: high-level parallel variant
calling.  Python dictionaries, lists and scalars are shallowly embedded as the
inductive type `JVal`; fallible dictionary/list accesses run in the `Py`
(`Except PyErr`) monad; the region-level dispatcher additionally records the
externally visible actions it performs (directory creation, caller invocation,
phasing, linking) in an effect trace, with the filesystem state passed in as a
pair of abstract existence predicates.
-/

/-- A Python value: None, bool, int, str, list or dict (dicts are modelled as
insertion-ordered association lists with string keys, which is how every dict
in this module is used). -/
inductive JVal where
  | null : JVal
  | b : Bool → JVal
  | i : Int → JVal
  | s : String → JVal
  | list : List JVal → JVal
  | dict : List (String × JVal) → JVal
  deriving Repr

mutual

def JVal.beq : JVal → JVal → Bool
  | .null, .null => true
  | .b x, .b y => x == y
  | .i x, .i y => x == y
  | .s x, .s y => x == y
  | .list xs, .list ys => JVal.beqList xs ys
  | .dict xs, .dict ys => JVal.beqDict xs ys
  | _, _ => false

def JVal.beqList : List JVal → List JVal → Bool
  | [], [] => true
  | x :: xs, y :: ys => JVal.beq x y && JVal.beqList xs ys
  | _, _ => false

def JVal.beqDict : List (String × JVal) → List (String × JVal) → Bool
  | [], [] => true
  | (k, v) :: xs, (l, w) :: ys => k == l && JVal.beq v w && JVal.beqDict xs ys
  | _, _ => false

end

mutual

theorem JVal.beq_iff_eq : ∀ x y : JVal, JVal.beq x y = true ↔ x = y
  | .null, .null => by simp [JVal.beq]
  | .b x, .b y => by simp [JVal.beq]
  | .i x, .i y => by simp [JVal.beq]
  | .s x, .s y => by simp [JVal.beq]
  | .list xs, .list ys => by
      simp only [JVal.beq, JVal.beqList_iff_eq xs ys]
      exact ⟨fun h => by rw [h], fun h => by cases h; rfl⟩
  | .dict xs, .dict ys => by
      simp only [JVal.beq, JVal.beqDict_iff_eq xs ys]
      exact ⟨fun h => by rw [h], fun h => by cases h; rfl⟩
  | .null, .b _ => by simp [JVal.beq]
  | .null, .i _ => by simp [JVal.beq]
  | .null, .s _ => by simp [JVal.beq]
  | .null, .list _ => by simp [JVal.beq]
  | .null, .dict _ => by simp [JVal.beq]
  | .b _, .null => by simp [JVal.beq]
  | .b _, .i _ => by simp [JVal.beq]
  | .b _, .s _ => by simp [JVal.beq]
  | .b _, .list _ => by simp [JVal.beq]
  | .b _, .dict _ => by simp [JVal.beq]
  | .i _, .null => by simp [JVal.beq]
  | .i _, .b _ => by simp [JVal.beq]
  | .i _, .s _ => by simp [JVal.beq]
  | .i _, .list _ => by simp [JVal.beq]
  | .i _, .dict _ => by simp [JVal.beq]
  | .s _, .null => by simp [JVal.beq]
  | .s _, .b _ => by simp [JVal.beq]
  | .s _, .i _ => by simp [JVal.beq]
  | .s _, .list _ => by simp [JVal.beq]
  | .s _, .dict _ => by simp [JVal.beq]
  | .list _, .null => by simp [JVal.beq]
  | .list _, .b _ => by simp [JVal.beq]
  | .list _, .i _ => by simp [JVal.beq]
  | .list _, .s _ => by simp [JVal.beq]
  | .list _, .dict _ => by simp [JVal.beq]
  | .dict _, .null => by simp [JVal.beq]
  | .dict _, .b _ => by simp [JVal.beq]
  | .dict _, .i _ => by simp [JVal.beq]
  | .dict _, .s _ => by simp [JVal.beq]
  | .dict _, .list _ => by simp [JVal.beq]

theorem JVal.beqList_iff_eq : ∀ xs ys : List JVal, JVal.beqList xs ys = true ↔ xs = ys
  | [], [] => by simp [JVal.beqList]
  | [], _ :: _ => by simp [JVal.beqList]
  | _ :: _, [] => by simp [JVal.beqList]
  | x :: xs, y :: ys => by
      simp [JVal.beqList, JVal.beq_iff_eq x y, JVal.beqList_iff_eq xs ys]

theorem JVal.beqDict_iff_eq :
    ∀ xs ys : List (String × JVal), JVal.beqDict xs ys = true ↔ xs = ys
  | [], [] => by simp [JVal.beqDict]
  | [], _ :: _ => by simp [JVal.beqDict]
  | _ :: _, [] => by simp [JVal.beqDict]
  | (k, v) :: xs, (l, w) :: ys => by
      simp [JVal.beqDict, JVal.beq_iff_eq v w, JVal.beqDict_iff_eq xs ys, and_assoc]

end

instance : DecidableEq JVal := fun x y =>
  decidable_of_iff (JVal.beq x y = true) (JVal.beq_iff_eq x y)

/-- Python exceptions that the embedded code can raise. -/
inductive PyErr where
  | keyError : PyErr
  | indexError : PyErr
  | typeError : PyErr
  | attributeError : PyErr
  | valueError : PyErr
  | assertionError : PyErr
  deriving DecidableEq, Repr

/-- Fallible Python computations. -/
abbrev Py (α : Type) := Except PyErr α

instance {ε α : Type} [DecidableEq ε] [DecidableEq α] : DecidableEq (Except ε α) := fun x y =>
  match x, y with
  | .ok a, .ok b =>
      if h : a = b then .isTrue (h ▸ rfl) else .isFalse (fun hh => h (Except.ok.inj hh))
  | .ok _, .error _ => .isFalse (fun hh => Except.noConfusion hh)
  | .error _, .ok _ => .isFalse (fun hh => Except.noConfusion hh)
  | .error e, .error f =>
      if h : e = f then .isTrue (h ▸ rfl) else .isFalse (fun hh => h (Except.error.inj hh))

/-- Dictionary lookup (`None` for non-dicts; call sites that would raise in
Python go through the `py`-prefixed wrappers below instead). -/
def JVal.lookup : JVal → String → Option JVal
  | .dict kvs, k => kvs.lookup k
  | _, _ => none

/-- Python dict assignment `d[k] = v` on an association list: replace the first binding of `k`
in place, else append (Python dict assignment semantics). -/
def setAssoc : List (String × JVal) → String → JVal → List (String × JVal)
  | [], k, v => [(k, v)]
  | (k', v') :: rest, k, v =>
      if k' = k then (k, v) :: rest else (k', v') :: setAssoc rest k v

/-- Total dict update used in specification statements; on non-dicts it is the
identity (the embedded code only ever reaches it on dicts). -/
def JVal.setKey (d : JVal) (k : String) (v : JVal) : JVal :=
  match d with
  | .dict kvs => .dict (setAssoc kvs k v)
  | _ => d

/-- Nested in-place update `d[p₁]…[pₙ][k] = v`, rebuilt functionally. -/
def JVal.setIn (d : JVal) : List String → String → JVal → JVal
  | [], k, v => d.setKey k v
  | p :: ps, k, v =>
      match d.lookup p with
      | some sub => d.setKey p (sub.setIn ps k v)
      | none => d

/-- Python truthiness. -/
def JVal.truthy : JVal → Bool
  | .null => false
  | .b v => v
  | .i v => v != 0
  | .s v => v != ""
  | .list vs => !vs.isEmpty
  | .dict kvs => !kvs.isEmpty

/-- Python indexing `d[k]` on a dict: `KeyError` when missing, `TypeError` when `d` does not
support string indexing. -/
def pyGetKey (d : JVal) (k : String) : Py JVal :=
  match d with
  | .dict kvs =>
      match kvs.lookup k with
      | some v => .ok v
      | none => .error .keyError
  | _ => .error .typeError

/-- Python `d.get(k, default)`: `AttributeError` when `d` is not a dict. -/
def pyGetD (d : JVal) (k : String) (default : JVal) : Py JVal :=
  match d with
  | .dict kvs => .ok ((kvs.lookup k).getD default)
  | _ => .error .attributeError

/-- Total `d.get(k)` with a `None` default, used where the receiver is already
known to be a dict. -/
def JVal.getD (d : JVal) (k : String) : JVal :=
  (d.lookup k).getD .null

/-- Python indexing `v[n]` for a non-negative literal index: lists index elements, strings
index characters, anything else raises `TypeError`. -/
def pyIndex (v : JVal) (n : Nat) : Py JVal :=
  match v with
  | .list vs =>
      match vs.get? n with
      | some x => .ok x
      | none => .error .indexError
  | .s str =>
      match str.toList.get? n with
      | some c => .ok (.s (String.mk [c]))
      | none => .error .indexError
  | _ => .error .typeError

/-- Python indexing `xs[0]` on a host-level list (`IndexError` when empty). -/
def pyHead {α : Type} : List α → Py α
  | [] => .error .indexError
  | x :: _ => .ok x

/-- Python membership `k in d` for dicts (`TypeError` otherwise, as for the unhashable/wrong
receivers this module could pass). -/
def pyContains (d : JVal) (k : String) : Py Bool :=
  match d with
  | .dict kvs => .ok (kvs.lookup k).isSome
  | _ => .error .typeError

/-- Python `d.keys()[0]`: first key of a dict (`IndexError` on an empty dict,
`AttributeError` when `d` has no `keys` method). -/
def pyFirstKey (d : JVal) : Py String :=
  match d with
  | .dict [] => .error .indexError
  | .dict ((k, _) :: _) => .ok k
  | _ => .error .attributeError

/-- Python iteration `for x in v`: lists yield elements, dicts their keys, strings their
characters; other values raise `TypeError`. -/
def pyIter (v : JVal) : Py (List JVal) :=
  match v with
  | .list vs => .ok vs
  | .dict kvs => .ok (kvs.map fun kv => .s kv.1)
  | .s str => .ok (str.toList.map fun c => .s (String.mk [c]))
  | _ => .error .typeError

/-- Python `v.index(x)` on a list: position of the first equal element, `ValueError`
when absent, `TypeError` on non-list receivers (as for the values this module
can pass). -/
def pyListIndex (v : JVal) (x : JVal) : Py Nat :=
  match v with
  | .list vs =>
      match vs.findIdx? (fun y => y = x) with
      | some n => .ok n
      | none => .error .valueError
  | _ => .error .typeError

/-- Monadic map embedding Python's sequential loops/comprehensions: the first
exception aborts the whole computation. -/
def pyMapM {α β : Type} (f : α → Py β) : List α → Py (List β)
  | [] => .ok []
  | x :: xs => do
      let y ← f x
      let ys ← pyMapM f xs
      pure (y :: ys)

/-- Nested in-place assignment `d[p₁]…[pₙ][k] = v` with Python errors when a
path component is missing or not a dict. -/
def pySetIn (d : JVal) : List String → String → JVal → Py JVal
  | [], k, v =>
      match d with
      | .dict kvs => .ok (.dict (setAssoc kvs k v))
      | _ => .error .typeError
  | p :: ps, k, v => do
      let sub ← pyGetKey d p
      let sub' ← pySetIn sub ps k v
      match d with
      | .dict kvs => .ok (.dict (setAssoc kvs p sub'))
      | _ => .error .typeError

/-- Modelled from the spec: `bcbio.utils.get_in` (the repository's `utils`
module is not under `src/`).  Reads a chain of nested keys, yielding the value
when the whole chain is present ("read either from a 'combine' sub-field (if
present …) or the record's direct alignment field"), and nothing otherwise. -/
def get_in (d : JVal) (path : List String) : Option JVal :=
  path.foldl (fun acc k => acc.bind (fun v => v.lookup k)) (some d)

/-! ## Source embeddings: `bcbio/variation/genotype.py` -/

/-- Source `get_variantcaller` (genotype.py lines 31-32):
`data["config"]["algorithm"].get("variantcaller", "gatk")`. -/
def get_variantcaller (data : JVal) : Py JVal := do
  let cfg ← pyGetKey data "config"
  let alg ← pyGetKey cfg "algorithm"
  pyGetD alg "variantcaller" (.s "gatk")

/-- genotype.py line 39: `utils.get_in(x[0], ("combine", "work_bam", "out"),
x[0]["work_bam"])`.  Python evaluates the default argument eagerly, so a
missing `"work_bam"` raises even when the `"combine"` chain is present. -/
def bam_key (x : JVal) : Py JVal := do
  let dflt ← pyGetKey x "work_bam"
  pure ((get_in x ["combine", "work_bam", "out"]).getD dflt)

/-- One group of the `combine_multiple_callers` fold: the shared alignment
key, the first member to arrive, and the later members in arrival order. -/
abbrev BamGroup := JVal × JVal × List JVal

def BamGroup.members (g : BamGroup) : List JVal := g.2.1 :: g.2.2

/-- The step `by_bam[work_bam].append(x[0])`: append to the (unique) group with the
given key, or open a new group at the end. -/
def addToGroups : List BamGroup → JVal → JVal → List BamGroup
  | [], k, x => [(k, x, [])]
  | (k', f, r) :: gs, k, x =>
      if k' = k then (k', f, r ++ [x]) :: gs
      else (k', f, r) :: addToGroups gs k x

/-- The `collections.defaultdict(list)` of genotype.py lines 37-40, keyed by
the alignment reference.  CPython dict iteration order is modelled as
first-insertion order; none of the verified properties depend on the relative
order of distinct groups. -/
def groupPairs (ps : List (JVal × JVal)) : List BamGroup :=
  ps.foldl (fun gs p => addToGroups gs p.1 p.2) []

/-- Key comparison for Python's `sorted(..., key=f)` after decorating each
element with its computed integer key. -/
def keyLE (a b : JVal × Nat) : Prop := a.2 ≤ b.2

instance : DecidableRel keyLE := fun a b => Nat.decLe a.2 b.2

instance : IsTotal (JVal × Nat) keyLE := ⟨fun a b => Nat.le_total a.2 b.2⟩

instance : IsTrans (JVal × Nat) keyLE := ⟨fun _ _ _ h h' => Nat.le_trans h h'⟩

/-- Python's stable `sorted(ready_calls, key=orig_variantcaller_order)`:
keys are computed once per element in list order, then the decorated list is
stable-sorted by key and undecorated. -/
def pySortedByKey (pairs : List (JVal × Nat)) : List JVal :=
  (List.insertionSort keyLE pairs).map Prod.fst

/-- One entry of `ready_calls` (genotype.py lines 43-46). -/
def summary_call (x : JVal) : Py JVal := do
  let vc ← get_variantcaller x
  pure (.dict [("variantcaller", vc), ("vrn_file", x.getD "vrn_file"),
               ("validate", x.getD "validate")])

/-- The body of the per-group loop of `combine_multiple_callers`
(genotype.py lines 42-54): build the summary entries, take the first group
member as representative, sort by the recorded original caller order when the
group has more than one entry and the representative carries that order, and
attach the result as `variants`. -/
def combine_group (g : BamGroup) : Py (List JVal) := do
  let ready ← pyMapM summary_call (BamGroup.members g)
  let final := g.2.1
  if ready.length > 1 then do
    let cfg ← pyGetKey final "config"
    let alg ← pyGetKey cfg "algorithm"
    let hasOrig ← pyContains alg "orig_variantcaller"
    if hasOrig then do
      let orig ← pyGetKey alg "orig_variantcaller"
      let keys ← pyMapM (fun x => do
          let vc ← pyGetKey x "variantcaller"
          pyListIndex orig vc) ready
      let final' ← pySetIn final [] "variants" (.list (pySortedByKey (ready.zip keys)))
      pure [final']
    else do
      let final' ← pySetIn final [] "variants" (.list ready)
      pure [final']
  else do
    let final' ← pySetIn final [] "variants" (.list ready)
    pure [final']

/-- Source `combine_multiple_callers` (genotype.py lines 34-55). -/
def combine_multiple_callers (data : List (List JVal)) : Py (List (List JVal)) := do
  let keyed ← pyMapM (fun x => do
      let x0 ← pyHead x
      let k ← bam_key x0
      pure (k, x0)) data
  pyMapM combine_group (groupPairs keyed)

/-- Source `handle_multiple_variantcallers` (genotype.py lines 106-123).
`copy.deepcopy(data[0])` is the identity on embedded values: every work item
below is built functionally from the input record, so distinct work items
share no mutable state by construction. -/
def handle_multiple_variantcallers (data : List JVal) : Py (List (List JVal)) :=
  match data with
  | [d] => do
      let callers ← get_variantcaller d
      match callers with
      | .s _ => pure [data]
      | c =>
          if c.truthy then do
            let cs ← pyIter c
            pyMapM (fun caller => do
                let cfg ← pyGetKey d "config"
                let alg ← pyGetKey cfg "algorithm"
                let orig ← pyGetKey alg "variantcaller"
                let base1 ← pySetIn d ["config", "algorithm"] "orig_variantcaller" orig
                let base2 ← pySetIn base1 ["config", "algorithm"] "variantcaller" caller
                pure [base2]) cs
          else pure []
  | _ => .error .assertionError

/-- How the routing loop of `parallel_variantcall_region` classifies one
sample group. -/
inductive Route where
  | proc : List (List JVal) → Route
  | grouped : JVal → Route
  | extra : Route

/-- One iteration of the routing loop of `parallel_variantcall_region`
(genotype.py lines 87-97): expand callers; when expansion yields nothing,
send pre-combined records (a "combine" directive whose first key is already
present on the record) to the grouping path, everything else to `extras`. -/
def route_one (x : List JVal) : Py Route := do
  let adds ← handle_multiple_variantcallers x
  if adds.isEmpty then do
    let x0 ← pyHead x
    let hasComb ← pyContains x0 "combine"
    if hasComb then do
      let comb ← pyGetKey x0 "combine"
      let k ← pyFirstKey comb
      let isIn ← pyContains x0 k
      if isIn then
        if x.length = 1 then pure (.grouped x0) else .error .assertionError
      else pure .extra
    else pure .extra
  else pure (.proc adds)

/-- The routing loop of `parallel_variantcall_region` (genotype.py lines
84-97), producing `(to_process, extras, to_group)`.  The subsequent calls into
the external parallel engine (lines 98-104) are out of scope. -/
def route_samples : List (List JVal) → Py (List (List JVal) × List (List JVal) × List JVal)
  | [] => .ok ([], [], [])
  | x :: xs => do
      let r ← route_one x
      let (p, e, g) ← route_samples xs
      match r with
      | .proc adds => pure (adds ++ p, e, g)
      | .grouped d => pure (p, e, d :: g)
      | .extra => pure (p, x :: e, g)

/-- Abstract filesystem state: `os.path.exists`, `os.path.lexists` and
`utils.file_exists` (the latter also requires non-zero size, hence a separate
predicate).  On a real filesystem `pexists p = true` entails
`plexists p = true`, since `os.path.exists` follows the link at `p` and
therefore requires the entry at `p` itself to exist. -/
structure FS where
  pexists : String → Bool
  plexists : String → Bool
  file_exists : String → Bool

/-- Externally visible actions of the region-level dispatcher. -/
inductive Effect where
  | makedir : String → Effect
  | callerRun : String → Effect
  | phaseRun : String → Effect
  | symlink : String → String → Effect
  deriving DecidableEq, Repr

/-- Fallible computation with an effect trace. -/
def Tr (α : Type) : Type := List Effect → Py α × List Effect

def Tr.pure {α : Type} (a : α) : Tr α := fun t => (.ok a, t)

def Tr.bind {α β : Type} (m : Tr α) (f : α → Tr β) : Tr β := fun t =>
  match m t with
  | (.ok a, t') => f a t'
  | (.error e, t') => (.error e, t')

instance : Monad Tr where
  pure := Tr.pure
  bind := Tr.bind

def Tr.emit (e : Effect) : Tr Unit := fun t => (.ok (), t ++ [e])

def Tr.fail {α : Type} (e : PyErr) : Tr α := fun t => (.error e, t)

def Tr.lift {α : Type} (p : Py α) : Tr α := fun t => (p, t)

def Tr.run {α : Type} (m : Tr α) : Py α × List Effect := m []

/-- A registered caller backend: an opaque deterministic function of
`(align_bams, items, ref_file, variation_resources, region, out_file)`
returning the produced call-file path (spec §6). -/
def CallerFn : Type := JVal → JVal → JVal → JVal → JVal → String → String

/-- The opaque external collaborators: the seven calling backends imported by
`get_variantcallers` and the read-backed phasing post-step. -/
structure CallerImpls where
  unified_genotyper : CallerFn
  haplotype_caller : CallerFn
  run_freebayes : CallerFn
  run_cortex : CallerFn
  run_samtools : CallerFn
  run_varscan : CallerFn
  mutect_caller : CallerFn
  read_backed_phasing : String → JVal → JVal → JVal → JVal → String

/-- Source `get_variantcallers` (genotype.py lines 125-133): the caller
registry, a fixed mapping from identifier to backend function. -/
def get_variantcallers (impl : CallerImpls) : List (String × CallerFn) :=
  [("gatk", impl.unified_genotyper),
   ("gatk-haplotype", impl.haplotype_caller),
   ("freebayes", impl.run_freebayes),
   ("cortex", impl.run_cortex),
   ("samtools", impl.run_samtools),
   ("varscan", impl.run_varscan),
   ("mutect", impl.mutect_caller)]

/-- genotype.py line 143:
`caller_fns[config["algorithm"].get("variantcaller", "gatk")]`.  An identifier
with no registry mapping raises `KeyError`; unhashable configuration values
(lists, dicts) raise `TypeError`. -/
def resolve_caller (impl : CallerImpls) (alg : JVal) : Py (String × CallerFn) := do
  let vc ← pyGetD alg "variantcaller" (.s "gatk")
  match vc with
  | .s nm =>
      match (get_variantcallers impl).lookup nm with
      | some f => .ok (nm, f)
      | none => .error .keyError
  | .list _ => .error .typeError
  | .dict _ => .error .typeError
  | _ => .error .keyError

/-- Model of `os.path.dirname` for slash-separated paths: everything before the last
slash (empty when the path has no directory part). -/
def dirname (p : String) : String :=
  match (p.toList.reverse.dropWhile (fun c => c ≠ '/')) with
  | [] => ""
  | _ :: rest => String.mk rest.reverse

/-- Modelled from the spec: `utils.splitext_plus` (the repository's `utils`
module is not under `src/`): split a path into base and (possibly double,
e.g. ".vcf.gz") extension; per spec §6 the raw intermediate output keeps the
same base with a "-raw" suffix before the extension. -/
def splitext_plus (p : String) : String × String :=
  let cs := p.toList
  let baseRev := cs.reverse.takeWhile (fun c => c ≠ '/')
  let front := cs.take (cs.length - baseRev.length)
  let base := baseRev.reverse
  let pre := base.takeWhile (fun c => c ≠ '.')
  let ext := base.drop pre.length
  if ext.isEmpty then (p, "")
  else (String.mk (front ++ pre), String.mk ext)

/-- genotype.py line 150: `"%s-raw%s" % utils.splitext_plus(out_file)`. -/
def raw_name (p : String) : String :=
  (splitext_plus p).1 ++ "-raw" ++ (splitext_plus p).2

/-- Source `variantcall_sample` (genotype.py lines 135-158).  The guard of
line 138 is embedded verbatim: recompute when `out_file is None`, or when
`os.path.exists` fails, or when `os.path.lexists` fails (note the `or`).
With `out_file = None` the recompute branch immediately crashes in
`os.path.dirname(None)`. -/
def variantcall_sample (impl : CallerImpls) (fs : FS) (data : JVal) (reg : JVal)
    (out_file : Option String) : Tr (List JVal) :=
  match out_file with
  | none => Tr.fail .attributeError
  | some out =>
      if fs.pexists out = false ∨ fs.plexists out = false then do
        Tr.emit (.makedir (dirname out))
        let sam_ref ← Tr.lift (pyGetKey data "sam_ref")
        let config ← Tr.lift (pyGetKey data "config")
        let alg ← Tr.lift (pyGetKey config "algorithm")
        let nmfn ← Tr.lift (resolve_caller impl alg)
        let wb ← Tr.lift (pyGetKey data "work_bam")
        let bamsItems ←
          match wb with
          | .s path => Tr.pure (JVal.list [.s path], JVal.list [data])
          | w => do
              let go ← Tr.lift (pyGetKey data "group_orig")
              Tr.pure (w, go)
        let gres ← Tr.lift (pyGetKey data "genome_resources")
        let variation ← Tr.lift (pyGetKey gres "variation")
        Tr.emit (.callerRun nmfn.1)
        let call_file := nmfn.2 bamsItems.1 bamsItems.2 sam_ref variation reg (raw_name out)
        let ph ← Tr.lift (pyGetD alg "phasing" (.b false))
        let call_file2 ←
          if ph = .s "gatk" then do
            Tr.emit (.phaseRun call_file)
            Tr.pure (impl.read_backed_phasing call_file bamsItems.1 sam_ref reg config)
          else Tr.pure call_file
        Tr.emit (.symlink call_file2 out)
        let data2 ← Tr.lift (pySetIn data [] "vrn_file" (.s out))
        Tr.pure [data2]
      else do
        let data2 ← Tr.lift (pySetIn data [] "vrn_file" (.s out))
        Tr.pure [data2]

/-- The hardcoded batch-driver role list of `_split_by_ready_regions`
(genotype.py line 64). -/
def batch_drivers : List JVal := [.s "tumor"]

/-- Total `str()` rendering for the scalar values this module formats with
`"%s"`; collections are never formatted by the code paths under
verification, so they render as placeholders rather than full Python reprs. -/
def JVal.pystr : JVal → String
  | .null => "None"
  | .b true => "True"
  | .b false => "False"
  | .i n => toString n
  | .s v => v
  | .list _ => "<list>"
  | .dict _ => "<dict>"

/-- Join strings with a separator (structural, kernel-reducible). -/
def joinWith (sep : String) : List String → String
  | [] => ""
  | [x] => x
  | x :: y :: xs => x ++ sep ++ joinWith sep (y :: xs)

/-- Modelled from the spec: `bcbio.pipeline.region.to_safestr` (the
`bcbio.pipeline.region` module is not under `src/`): "a safe string encoding
of the region", here the region components joined with underscores. -/
def to_safestr (reg : JVal) : String :=
  match reg with
  | .list vs => joinWith "_" (vs.map JVal.pystr)
  | v => v.pystr

/-- Model of `os.path.join` for the relative path fragments this module builds. -/
def pjoin (a b : String) : String := a ++ "/" ++ b

/-- A value required to be a string (`os.path.join` raises on non-strings). -/
def pyAsStr (v : JVal) : Py String :=
  match v with
  | .s str => .ok str
  | _ => .error .typeError

/-- Source `_split_by_ready_regions` (genotype.py lines 57-79), with the
closure parameters `(ext, file_key, dir_ext_fn)` and the filesystem state
passed explicitly.  `file_key` is captured but unused, exactly as in the
source. -/
def split_by_ready_regions (ext : String) (file_key : String)
    (dir_ext_fn : JVal → Py JVal) (fs : FS) (data : JVal) :
    Py (Option String × List (JVal × String)) :=
  match data.lookup "region" with
  | none => .ok (none, [])
  | some reg => do
      let r0 ← pyIndex reg 0
      if r0 = .s "nochrom" ∨ r0 = .s "noanalysis" then pure (none, [])
      else do
        let name ← match data.lookup "group" with
          | some grp => pyIndex grp 0
          | none => pyGetKey data "description"
        let dirs ← pyGetKey data "dirs"
        let work ← pyGetKey dirs "work"
        let workS ← pyAsStr work
        let sub ← dir_ext_fn data
        let subS ← pyAsStr sub
        let out_dir := pjoin workS subS
        let out_file := out_dir ++ "/" ++ name.pystr ++ ext
        let phen := (get_in data ["metadata", "phenotype"]).getD .null
        if fs.file_exists out_file = false ∨ phen ∈ batch_drivers then do
          let r0s ← pyAsStr r0
          let out_region_file :=
            pjoin out_dir r0s ++ "/" ++ name.pystr ++ "-" ++ to_safestr reg ++ ext
          pure (some out_file, [(reg, out_region_file)])
        else pure (some out_file, [])

/-! ## Helper lemmas -/

theorem ok_bind {α β : Type} (a : α) (f : α → Py β) :
    (Except.ok a >>= f : Py β) = f a := rfl

theorem error_bind {α β : Type} (e : PyErr) (f : α → Py β) :
    (Except.error e >>= f : Py β) = .error e := rfl

theorem py_pure_eq_ok {α : Type} (a : α) : (pure a : Py α) = .ok a := rfl

theorem lookup_some_dict {d : JVal} {k : String} {v : JVal}
    (h : d.lookup k = some v) : ∃ kvs, d = .dict kvs := by
  cases d <;> simp [JVal.lookup] at h ⊢

theorem pyGetKey_of_lookup {d : JVal} {k : String} {v : JVal}
    (h : d.lookup k = some v) : pyGetKey d k = .ok v := by
  obtain ⟨kvs, rfl⟩ := lookup_some_dict h
  simp [JVal.lookup] at h
  simp [pyGetKey, h]

theorem pyGetD_of_lookup {d : JVal} {k : String} {v : JVal} (default : JVal)
    (h : d.lookup k = some v) : pyGetD d k default = .ok v := by
  obtain ⟨kvs, rfl⟩ := lookup_some_dict h
  simp [JVal.lookup] at h
  simp [pyGetD, h]

theorem pyGetD_of_absent {kvs : List (String × JVal)} {k : String} (default : JVal)
    (h : kvs.lookup k = none) : pyGetD (.dict kvs) k default = .ok default := by
  simp [pyGetD, h]

theorem pyContains_of_lookup {d : JVal} {k : String} {v : JVal}
    (h : d.lookup k = some v) : pyContains d k = .ok true := by
  obtain ⟨kvs, rfl⟩ := lookup_some_dict h
  simp [JVal.lookup] at h
  simp [pyContains, h]

theorem lookup_setAssoc_self (kvs : List (String × JVal)) (k : String) (v : JVal) :
    (setAssoc kvs k v).lookup k = some v := by
  induction kvs with
  | nil => simp [setAssoc]
  | cons kv rest ih =>
      obtain ⟨k', v'⟩ := kv
      by_cases h : k' = k
      · subst h
        simp [setAssoc, List.lookup]
      · have hb : (k == k') = false := beq_false_of_ne (fun hh => h hh.symm)
        simp [setAssoc, h, List.lookup, hb, ih]

theorem lookup_setAssoc_ne (kvs : List (String × JVal)) {k k' : String} (v : JVal)
    (h : k' ≠ k) : (setAssoc kvs k v).lookup k' = kvs.lookup k' := by
  induction kvs with
  | nil => simp [setAssoc, List.lookup, beq_false_of_ne h]
  | cons kv rest ih =>
      obtain ⟨k0, v0⟩ := kv
      by_cases h0 : k0 = k
      · subst h0
        simp [setAssoc, List.lookup, beq_false_of_ne h]
      · simp [setAssoc, h0, List.lookup, ih]

theorem lookup_setKey_self (kvs : List (String × JVal)) (k : String) (v : JVal) :
    (JVal.setKey (.dict kvs) k v).lookup k = some v := by
  simp [JVal.setKey, JVal.lookup, lookup_setAssoc_self]

theorem lookup_setKey_ne (d : JVal) {k k' : String} (v : JVal) (h : k' ≠ k) :
    (JVal.setKey d k v).lookup k' = d.lookup k' := by
  cases d <;> simp [JVal.setKey, JVal.lookup, lookup_setAssoc_ne _ _ h]

theorem pySetIn_nil {kvs : List (String × JVal)} (k : String) (v : JVal) :
    pySetIn (.dict kvs) [] k v = .ok (JVal.setKey (.dict kvs) k v) := by
  simp [pySetIn, JVal.setKey]

theorem pySetIn_cons_ok {d sub r : JVal} {p : String} {ps : List String}
    {k : String} {v : JVal} (h1 : d.lookup p = some sub)
    (h2 : pySetIn sub ps k v = .ok r) :
    pySetIn d (p :: ps) k v = .ok (JVal.setKey d p r) := by
  obtain ⟨kvs, rfl⟩ := lookup_some_dict h1
  simp [pySetIn, pyGetKey_of_lookup h1, ok_bind, h2, JVal.setKey]

theorem pyMapM_ok_of_forall {α β : Type} {f : α → Py β} {g : α → β}
    {l : List α} (h : ∀ a ∈ l, f a = .ok (g a)) :
    pyMapM f l = .ok (l.map g) := by
  induction l with
  | nil => simp [pyMapM]
  | cons x xs ih =>
      have hx : f x = .ok (g x) := h x (by simp)
      have ht : pyMapM f xs = .ok (xs.map g) := ih (fun a ha => h a (by simp [ha]))
      simp [pyMapM, hx, ht, ok_bind, py_pure_eq_ok]

theorem pyMapM_eq_ok_iff {α β : Type} {f : α → Py β} :
    ∀ {l : List α} {ys : List β},
      pyMapM f l = .ok ys ↔ List.Forall₂ (fun a b => f a = .ok b) l ys := by
  intro l
  induction l with
  | nil =>
      intro ys
      constructor
      · intro h
        simp [pyMapM] at h
        simp [← h]
      · intro h
        cases h
        simp [pyMapM]
  | cons x xs ih =>
      intro ys
      constructor
      · intro h
        simp only [pyMapM] at h
        cases hx : f x with
        | error e => rw [hx, error_bind] at h; exact absurd h (by simp)
        | ok y =>
            rw [hx, ok_bind] at h
            cases ht : pyMapM f xs with
            | error e => rw [ht, error_bind] at h; exact absurd h (by simp)
            | ok zs =>
                rw [ht, ok_bind] at h
                simp [py_pure_eq_ok] at h
                subst h
                exact List.Forall₂.cons hx (ih.mp ht)
      · intro h
        cases h with
        | cons hx ht =>
            simp [pyMapM, hx, ok_bind, ih.mpr ht, py_pure_eq_ok]

def groupKeys (gs : List BamGroup) : List JVal := gs.map (fun g => g.1)

def findGroup : List BamGroup → JVal → Option BamGroup
  | [], _ => none
  | g :: gs, k => if g.1 = k then some g else findGroup gs k

def groupFold (gs : List BamGroup) (ps : List (JVal × JVal)) : List BamGroup :=
  ps.foldl (fun acc p => addToGroups acc p.1 p.2) gs

theorem groupPairs_eq_fold (ps : List (JVal × JVal)) : groupPairs ps = groupFold [] ps := rfl

def insKeys (ks : List JVal) (l : List JVal) : List JVal :=
  l.foldl (fun acc k => if k ∈ acc then acc else acc ++ [k]) ks

theorem addToGroups_keys (gs : List BamGroup) (k x : JVal) :
    groupKeys (addToGroups gs k x) =
      if k ∈ groupKeys gs then groupKeys gs else groupKeys gs ++ [k] := by
  induction gs with
  | nil => simp [addToGroups, groupKeys]
  | cons g gs ih =>
      obtain ⟨k0, f, r⟩ := g
      by_cases hk : k0 = k
      · subst hk
        simp [addToGroups, groupKeys]
      · simp only [addToGroups, if_neg hk, groupKeys, List.map_cons] at ih ⊢
        rw [ih]
        by_cases hm : k ∈ List.map (fun g => g.1) gs
        · simp [hm, hk, Ne.symm hk]
        · simp [hm, hk, Ne.symm hk]

theorem findGroup_key {gs : List BamGroup} {k : JVal} {g : BamGroup}
    (h : findGroup gs k = some g) : g.1 = k := by
  induction gs with
  | nil => simp [findGroup] at h
  | cons g0 gs ih =>
      by_cases h0 : g0.1 = k
      · simp [findGroup, h0] at h
        rw [← h]
        exact h0
      · simp [findGroup, h0] at h
        exact ih h

theorem findGroup_addToGroups_ne (gs : List BamGroup) {k k' : JVal} (x : JVal)
    (h : k' ≠ k) : findGroup (addToGroups gs k x) k' = findGroup gs k' := by
  induction gs with
  | nil => simp [addToGroups, findGroup, Ne.symm h]
  | cons g gs ih =>
      obtain ⟨k0, f, r⟩ := g
      by_cases hk : k0 = k
      · subst hk
        simp [addToGroups, findGroup, Ne.symm h]
      · by_cases hk' : k0 = k'
        · subst hk'
          simp [addToGroups, hk, findGroup]
        · simp [addToGroups, hk, findGroup, hk', ih]

theorem findGroup_addToGroups_self (gs : List BamGroup) (k x : JVal) :
    findGroup (addToGroups gs k x) k =
      some (match findGroup gs k with
            | some g => (k, g.2.1, g.2.2 ++ [x])
            | none => (k, x, [])) := by
  induction gs with
  | nil => simp [addToGroups, findGroup]
  | cons g gs ih =>
      obtain ⟨k0, f, r⟩ := g
      by_cases hk : k0 = k
      · subst hk
        simp [addToGroups, findGroup]
      · simp [addToGroups, hk, findGroup, ih]

theorem findGroup_groupFold (ps : List (JVal × JVal)) :
    ∀ (gs : List BamGroup) (k : JVal),
      findGroup (groupFold gs ps) k =
        match findGroup gs k, (ps.filter (fun p => p.1 = k)).map Prod.snd with
        | none, [] => none
        | none, y :: ys => some (k, y, ys)
        | some g, l => some (g.1, g.2.1, g.2.2 ++ l) := by
  induction ps with
  | nil =>
      intro gs k
      cases h : findGroup gs k with
      | none => simp [groupFold, h]
      | some g =>
          obtain ⟨a, b, c⟩ := g
          simp [groupFold, h]
  | cons p ps ih =>
      intro gs k
      obtain ⟨pk, pv⟩ := p
      have hstep : groupFold gs ((pk, pv) :: ps) = groupFold (addToGroups gs pk pv) ps := by
        simp [groupFold]
      rw [hstep, ih]
      by_cases hpk : pk = k
      · subst hpk
        rw [findGroup_addToGroups_self]
        cases h : findGroup gs pk with
        | none => simp [h, List.filter_cons]
        | some g =>
            have hg : g.1 = pk := findGroup_key h
            simp [h, List.filter_cons, hg, List.append_assoc]
      · rw [findGroup_addToGroups_ne gs pv (fun hh => hpk hh.symm)]
        simp [List.filter_cons, hpk]

theorem groupKeys_groupFold (ps : List (JVal × JVal)) :
    ∀ gs : List BamGroup,
      groupKeys (groupFold gs ps) = insKeys (groupKeys gs) (ps.map Prod.fst) := by
  induction ps with
  | nil => intro gs; simp [groupFold, insKeys]
  | cons p ps ih =>
      intro gs
      have hstep : groupFold gs (p :: ps) = groupFold (addToGroups gs p.1 p.2) ps := by
        simp [groupFold]
      rw [hstep, ih, addToGroups_keys]
      simp [insKeys]

theorem mem_insKeys (l : List JVal) :
    ∀ (ks : List JVal) (a : JVal), a ∈ insKeys ks l ↔ a ∈ ks ∨ a ∈ l := by
  induction l with
  | nil => intro ks a; simp [insKeys]
  | cons k l ih =>
      intro ks a
      have hstep : insKeys ks (k :: l) = insKeys (if k ∈ ks then ks else ks ++ [k]) l := by
        simp [insKeys]
      rw [hstep, ih]
      by_cases hk : k ∈ ks
      · simp only [if_pos hk]
        constructor
        · rintro (h | h)
          · exact Or.inl h
          · exact Or.inr (List.mem_cons_of_mem _ h)
        · rintro (h | h)
          · exact Or.inl h
          · rcases List.mem_cons.mp h with h | h
            · exact Or.inl (h ▸ hk)
            · exact Or.inr h
      · simp only [if_neg hk, List.mem_append, List.mem_singleton, List.mem_cons]
        tauto

theorem nodup_insKeys (l : List JVal) :
    ∀ ks : List JVal, ks.Nodup → (insKeys ks l).Nodup := by
  induction l with
  | nil => intro ks h; simpa [insKeys] using h
  | cons k l ih =>
      intro ks h
      have hstep : insKeys ks (k :: l) = insKeys (if k ∈ ks then ks else ks ++ [k]) l := by
        simp [insKeys]
      rw [hstep]
      apply ih
      by_cases hk : k ∈ ks
      · simpa [hk] using h
      · simp [hk, List.nodup_append, h, List.disjoint_singleton]

theorem groupKeys_groupPairs_nodup (ps : List (JVal × JVal)) :
    (groupKeys (groupPairs ps)).Nodup := by
  rw [groupPairs_eq_fold, groupKeys_groupFold]
  exact nodup_insKeys _ _ (by simp [groupKeys])

theorem mem_groupKeys_groupPairs (ps : List (JVal × JVal)) (k : JVal) :
    k ∈ groupKeys (groupPairs ps) ↔ k ∈ ps.map Prod.fst := by
  rw [groupPairs_eq_fold, groupKeys_groupFold, mem_insKeys]
  simp [groupKeys]

theorem length_groupPairs (ps : List (JVal × JVal)) :
    (groupPairs ps).length = (ps.map Prod.fst).dedup.length := by
  have h1 : (groupPairs ps).length = (groupKeys (groupPairs ps)).length := by
    simp [groupKeys]
  have h2 : (groupKeys (groupPairs ps)).toFinset = (ps.map Prod.fst).toFinset := by
    apply Finset.ext
    intro a
    simp [List.mem_toFinset, mem_groupKeys_groupPairs]
  calc (groupPairs ps).length
      = (groupKeys (groupPairs ps)).length := h1
    _ = (groupKeys (groupPairs ps)).toFinset.card :=
        (List.toFinset_card_of_nodup (groupKeys_groupPairs_nodup ps)).symm
    _ = (ps.map Prod.fst).toFinset.card := by rw [h2]
    _ = (ps.map Prod.fst).dedup.length := List.card_toFinset _

theorem findGroup_self_of_mem {gs : List BamGroup} {g : BamGroup}
    (hnd : (groupKeys gs).Nodup) (hg : g ∈ gs) : findGroup gs g.1 = some g := by
  induction gs with
  | nil => simp at hg
  | cons g0 gs ih =>
      rcases List.mem_cons.mp hg with h | h
      · subst h
        simp [findGroup]
      · rw [groupKeys, List.map_cons, List.nodup_cons] at hnd
        have hne : g0.1 ≠ g.1 := by
          intro hh
          exact hnd.1 (hh ▸ List.mem_map.mpr ⟨g, h, rfl⟩)
        have ihh := ih hnd.2 h
        simp only [findGroup, if_neg hne]
        exact ihh

theorem members_of_mem_groupPairs {ps : List (JVal × JVal)} {g : BamGroup}
    (hg : g ∈ groupPairs ps) :
    BamGroup.members g = (ps.filter (fun p => p.1 = g.1)).map Prod.snd := by
  have hfind : findGroup (groupPairs ps) g.1 = some g :=
    findGroup_self_of_mem (groupKeys_groupPairs_nodup ps) hg
  rw [groupPairs_eq_fold, findGroup_groupFold] at hfind
  simp only [findGroup] at hfind
  cases hfm : (ps.filter (fun p => p.1 = g.1)).map Prod.snd with
  | nil => rw [hfm] at hfind; simp at hfind
  | cons y ys =>
      rw [hfm] at hfind
      simp at hfind
      rw [← hfind]
      simp [BamGroup.members]

theorem groupFold_of_const_key {k : JVal} :
    ∀ (ps : List (JVal × JVal)) (f : JVal) (r : List JVal),
      (∀ p ∈ ps, p.1 = k) →
      groupFold [(k, f, r)] ps = [(k, f, r ++ ps.map Prod.snd)] := by
  intro ps
  induction ps with
  | nil => intro f r _; simp [groupFold]
  | cons p ps ih =>
      intro f r hall
      obtain ⟨pk, pv⟩ := p
      have hpk : pk = k := hall (pk, pv) (by simp)
      subst hpk
      have hstep : groupFold [(pk, f, r)] ((pk, pv) :: ps) =
          groupFold (addToGroups [(pk, f, r)] pk pv) ps := by
        simp [groupFold]
      rw [hstep]
      simp only [addToGroups, eq_self_iff_true, if_true]
      rw [ih f (r ++ [pv]) (fun q hq => hall q (by simp [hq]))]
      simp

theorem groupPairs_of_const_key {k : JVal} {p : JVal × JVal} {ps : List (JVal × JVal)}
    (hp : p.1 = k) (hall : ∀ q ∈ ps, q.1 = k) :
    groupPairs (p :: ps) = [(k, p.2, ps.map Prod.snd)] := by
  obtain ⟨pk, pv⟩ := p
  simp only at hp
  subst hp
  rw [groupPairs_eq_fold]
  have hstep : groupFold [] ((pk, pv) :: ps) = groupFold (addToGroups [] pk pv) ps := by
    simp [groupFold]
  rw [hstep]
  simp only [addToGroups]
  exact groupFold_of_const_key ps pv [] hall

theorem pySortedByKey_perm (pairs : List (JVal × Nat)) :
    (pySortedByKey pairs).Perm (pairs.map Prod.fst) :=
  (List.perm_insertionSort keyLE pairs).map Prod.fst

theorem pySortedByKey_sorted (pairs : List (JVal × Nat)) :
    List.Pairwise keyLE (List.insertionSort keyLE pairs) :=
  List.sorted_insertionSort keyLE pairs

theorem tr_run_bind {α β : Type} (m : Tr α) (f : α → Tr β) (t : List Effect) :
    (m >>= f) t = match m t with
      | (.ok a, t') => f a t'
      | (.error e, t') => (.error e, t') := rfl

theorem tr_lift_app {α : Type} (p : Py α) (t : List Effect) : Tr.lift p t = (p, t) := rfl

theorem tr_emit_app (e : Effect) (t : List Effect) : Tr.emit e t = (.ok (), t ++ [e]) := rfl

theorem tr_pure_app {α : Type} (a : α) (t : List Effect) :
    (pure a : Tr α) t = (.ok a, t) := rfl

theorem variantcall_sample_skip (reg : JVal) {impl : CallerImpls} {fs : FS} {d : JVal}
    {kvs : List (String × JVal)} {out : String}
    (hd : d = .dict kvs) (h1 : fs.pexists out = true) (h2 : fs.plexists out = true) :
    (variantcall_sample impl fs d reg (some out)).run =
      (.ok [d.setKey "vrn_file" (.s out)], []) := by
  subst hd
  simp [variantcall_sample, h1, h2, Tr.run, tr_run_bind, tr_lift_app, tr_pure_app,
        pySetIn, JVal.setKey, Bind.bind, Tr.bind, Tr.lift, Tr.pure, Pure.pure, pure]

theorem variantcall_sample_resolve_error (reg : JVal) {impl : CallerImpls} {fs : FS}
    {d c a : JVal} {sr : JVal} {out : String} {e : PyErr}
    (hfs : fs.pexists out = false ∨ fs.plexists out = false)
    (hs : d.lookup "sam_ref" = some sr)
    (hc : d.lookup "config" = some c)
    (ha : c.lookup "algorithm" = some a)
    (hres : resolve_caller impl a = .error e) :
    (variantcall_sample impl fs d reg (some out)).run =
      (.error e, [.makedir (dirname out)]) := by
  have hcond : (fs.pexists out = false ∨ fs.plexists out = false) := hfs
  simp [variantcall_sample, hcond, Tr.run, Bind.bind, Tr.bind, Tr.lift, Tr.pure,
        Pure.pure, Tr.emit, pyGetKey_of_lookup hs, pyGetKey_of_lookup hc,
        pyGetKey_of_lookup ha, hres]

theorem variantcall_sample_recompute (reg : JVal) {impl : CallerImpls} {fs : FS}
    {d c a sr gr var : JVal}
    {nm : String} {fn : CallerFn} {bam : String} {phv : JVal} {out : String}
    {kvs : List (String × JVal)}
    (hd : d = .dict kvs)
    (hfs : fs.pexists out = false ∨ fs.plexists out = false)
    (hs : d.lookup "sam_ref" = some sr)
    (hc : d.lookup "config" = some c)
    (ha : c.lookup "algorithm" = some a)
    (hres : resolve_caller impl a = .ok (nm, fn))
    (hw : d.lookup "work_bam" = some (.s bam))
    (hg : d.lookup "genome_resources" = some gr)
    (hgv : gr.lookup "variation" = some var)
    (hph : pyGetD a "phasing" (.b false) = .ok phv)
    (hphn : phv ≠ .s "gatk") :
    (variantcall_sample impl fs d reg (some out)).run =
      (.ok [d.setKey "vrn_file" (.s out)],
       [.makedir (dirname out), .callerRun nm,
        .symlink (fn (.list [.s bam]) (.list [d]) sr var reg (raw_name out)) out]) := by
  subst hd
  simp [variantcall_sample, hfs, Tr.run, Bind.bind, Tr.bind, Tr.lift, Tr.pure,
        Pure.pure, Tr.emit, pyGetKey_of_lookup hs, pyGetKey_of_lookup hc,
        pyGetKey_of_lookup ha, hres, pyGetKey_of_lookup hw, pyGetKey_of_lookup hg,
        pyGetKey_of_lookup hgv, hph, hphn, pySetIn, JVal.setKey]

theorem setIn_path2 {d c : JVal} {alg : List (String × JVal)} (k : String) (v : JVal)
    (hc : d.lookup "config" = some c)
    (ha : c.lookup "algorithm" = some (.dict alg)) :
    d.setIn ["config", "algorithm"] k v =
      d.setKey "config" (c.setKey "algorithm" (.dict (setAssoc alg k v))) := by
  simp [JVal.setIn, hc, ha, JVal.setKey]

theorem pySetIn_path2_ok {d c : JVal} {alg : List (String × JVal)} (k : String) (v : JVal)
    (hc : d.lookup "config" = some c)
    (ha : c.lookup "algorithm" = some (.dict alg)) :
    pySetIn d ["config", "algorithm"] k v = .ok (d.setIn ["config", "algorithm"] k v) := by
  have h1 : pySetIn (.dict alg) [] k v = .ok (.dict (setAssoc alg k v)) := by
    simp [pySetIn]
  have h2 : pySetIn c ["algorithm"] k v =
      .ok (c.setKey "algorithm" (.dict (setAssoc alg k v))) := pySetIn_cons_ok ha h1
  rw [setIn_path2 k v hc ha]
  exact pySetIn_cons_ok hc h2

/-- The work item produced for one caller identifier by
`handle_multiple_variantcallers`: a (deep-copied) record carrying the full
original caller sequence under `orig_variantcaller` and the assigned
identifier under `variantcaller`. -/
def expand_item (d orig caller : JVal) : JVal :=
  (d.setIn ["config", "algorithm"] "orig_variantcaller" orig).setIn
    ["config", "algorithm"] "variantcaller" caller

/-- The `config.algorithm.<k>` entry of a record. -/
def alg_entry (d : JVal) (k : String) : Option JVal :=
  ((d.lookup "config").bind (fun c => c.lookup "algorithm")).bind (fun a => a.lookup k)

theorem setAssoc_setAssoc_self (kvs : List (String × JVal)) (k : String) (v w : JVal) :
    setAssoc (setAssoc kvs k v) k w = setAssoc kvs k w := by
  induction kvs with
  | nil => simp [setAssoc]
  | cons kv rest ih =>
      obtain ⟨k0, v0⟩ := kv
      by_cases h : k0 = k
      · subst h
        simp [setAssoc]
      · simp [setAssoc, h, ih]

theorem expand_item_eq {d c : JVal} {alg : List (String × JVal)} (orig caller : JVal)
    (hc : d.lookup "config" = some c)
    (ha : c.lookup "algorithm" = some (.dict alg)) :
    expand_item d orig caller =
      (d.setKey "config" (c.setKey "algorithm"
          (.dict (setAssoc alg "orig_variantcaller" orig)))).setKey "config"
        ((c.setKey "algorithm" (.dict (setAssoc alg "orig_variantcaller" orig))).setKey
          "algorithm"
          (.dict (setAssoc (setAssoc alg "orig_variantcaller" orig) "variantcaller" caller))) := by
  have hc1 : (d.setIn ["config", "algorithm"] "orig_variantcaller" orig).lookup "config" =
      some (c.setKey "algorithm" (.dict (setAssoc alg "orig_variantcaller" orig))) := by
    obtain ⟨kvs, rfl⟩ := lookup_some_dict hc
    rw [setIn_path2 _ _ hc ha]
    exact lookup_setKey_self _ _ _
  have ha1 : (c.setKey "algorithm"
      (.dict (setAssoc alg "orig_variantcaller" orig))).lookup "algorithm" =
      some (.dict (setAssoc alg "orig_variantcaller" orig)) := by
    obtain ⟨cvs, rfl⟩ := lookup_some_dict ha
    exact lookup_setKey_self _ _ _
  rw [expand_item, setIn_path2 _ _ hc1 ha1, setIn_path2 _ _ hc ha]

theorem alg_entry_expand_item_vc {d c : JVal} {alg : List (String × JVal)} (orig caller : JVal)
    (hc : d.lookup "config" = some c)
    (ha : c.lookup "algorithm" = some (.dict alg)) :
    alg_entry (expand_item d orig caller) "variantcaller" = some caller := by
  obtain ⟨kvs, rfl⟩ := lookup_some_dict hc
  obtain ⟨cvs, rfl⟩ := lookup_some_dict ha
  rw [expand_item_eq orig caller hc ha]
  simp [alg_entry, JVal.setKey, JVal.lookup, setAssoc_setAssoc_self,
        lookup_setAssoc_self]

theorem alg_entry_expand_item_orig {d c : JVal} {alg : List (String × JVal)}
    (orig caller : JVal)
    (hc : d.lookup "config" = some c)
    (ha : c.lookup "algorithm" = some (.dict alg)) :
    alg_entry (expand_item d orig caller) "orig_variantcaller" = some orig := by
  obtain ⟨kvs, rfl⟩ := lookup_some_dict hc
  obtain ⟨cvs, rfl⟩ := lookup_some_dict ha
  rw [expand_item_eq orig caller hc ha]
  have hne : ("orig_variantcaller" : String) ≠ "variantcaller" := by decide
  simp [alg_entry, JVal.setKey, JVal.lookup, setAssoc_setAssoc_self,
        lookup_setAssoc_ne _ _ hne, lookup_setAssoc_self]

theorem py_map_ok {α β : Type} (f : α → β) (a : α) :
    (f <$> (Except.ok a : Py α) : Py β) = .ok (f a) := rfl

theorem handle_multi_list_eval {d c : JVal} {alg : List (String × JVal)} {cs : List JVal}
    (hc : d.lookup "config" = some c)
    (ha : c.lookup "algorithm" = some (.dict alg))
    (hv : alg.lookup "variantcaller" = some (.list cs))
    (hne : cs ≠ []) :
    handle_multiple_variantcallers [d] =
      .ok (cs.map fun caller => [expand_item d (.list cs) caller]) := by
  have hv2 : (JVal.dict alg).lookup "variantcaller" = some (.list cs) := by
    simpa [JVal.lookup] using hv
  have hgv : get_variantcaller d = .ok (.list cs) := by
    simp [get_variantcaller, pyGetKey_of_lookup hc, pyGetKey_of_lookup ha, ok_bind,
          pyGetD_of_lookup _ hv2]
  have htr : (JVal.list cs).truthy = true := by
    simp [JVal.truthy, hne]
  simp only [handle_multiple_variantcallers, hgv, ok_bind, htr, if_true, pyIter]
  apply pyMapM_ok_of_forall
  intro caller _
  have h1 := pySetIn_path2_ok "orig_variantcaller" (.list cs) hc ha
  have hc1 : (d.setIn ["config", "algorithm"] "orig_variantcaller" (.list cs)).lookup
      "config" = some (c.setKey "algorithm"
        (.dict (setAssoc alg "orig_variantcaller" (.list cs)))) := by
    obtain ⟨kvs, rfl⟩ := lookup_some_dict hc
    rw [setIn_path2 _ _ hc ha]
    exact lookup_setKey_self _ _ _
  have ha1 : (c.setKey "algorithm"
      (.dict (setAssoc alg "orig_variantcaller" (.list cs)))).lookup "algorithm" =
      some (.dict (setAssoc alg "orig_variantcaller" (.list cs))) := by
    obtain ⟨cvs, rfl⟩ := lookup_some_dict ha
    exact lookup_setKey_self _ _ _
  have h2 := pySetIn_path2_ok "variantcaller" caller hc1 ha1
  simp [pyGetKey_of_lookup hc, pyGetKey_of_lookup ha, ok_bind, pyGetKey_of_lookup hv2,
        h1, h2, py_pure_eq_ok, py_map_ok, expand_item]

/-! ## Concrete records used by witnesses and counterexamples -/

/-- A sample whose algorithm block has no "variantcaller" key at all. -/
def sampleNoVC : JVal := .dict [("config", .dict [("algorithm", .dict [])])]

/-- A sample whose "variantcaller" is explicitly None. -/
def sampleNullVC : JVal :=
  .dict [("config", .dict [("algorithm", .dict [("variantcaller", .null)])])]

/-- Opaque caller backends for concrete runs: each returns its requested
output path; phasing appends a suffix. -/
def implX : CallerImpls :=
  ⟨fun _ _ _ _ _ o => o, fun _ _ _ _ _ o => o, fun _ _ _ _ _ o => o, fun _ _ _ _ _ o => o,
   fun _ _ _ _ _ o => o, fun _ _ _ _ _ o => o, fun _ _ _ _ _ o => o,
   fun cf _ _ _ _ => cf ++ "-phased"⟩

/-- A fully populated single-bam work item (default caller). -/
def sampleFull : JVal :=
  .dict [("sam_ref", .s "ref.fa"),
         ("config", .dict [("algorithm", .dict [])]),
         ("work_bam", .s "A.bam"),
         ("genome_resources", .dict [("variation", .dict [])])]

/-- Filesystem in which every target exists only as a dangling symbolic
reference: `os.path.lexists` holds, `os.path.exists` does not. -/
def fsDangling : FS := ⟨fun _ => false, fun _ => true, fun _ => false⟩

/-- Filesystem in which every target exists as a regular file. -/
def fsAll : FS := ⟨fun _ => true, fun _ => true, fun _ => true⟩

/-- Filesystem with nothing on disk. -/
def fsNone : FS := ⟨fun _ => false, fun _ => false, fun _ => false⟩

/-! ## Claims -/

/-- C2: for every sample whose caller configuration is an ordered sequence of
N > 1 identifiers, `handle_multiple_variantcallers` returns exactly N work
items, one per identifier in sequence order; each is built functionally from
the input record alone (deep copy: replacing one work item leaves every
sibling unchanged), each carries the full original sequence under
`orig_variantcaller`, and each has `variantcaller` set to its single assigned
identifier. -/
theorem C2_per_sample_caller_expansion (d c : JVal) (alg : List (String × JVal))
    (cs : List JVal)
    (hc : d.lookup "config" = some c)
    (ha : c.lookup "algorithm" = some (.dict alg))
    (hv : alg.lookup "variantcaller" = some (.list cs))
    (hn : 1 < cs.length) :
    ∃ out : List (List JVal),
      handle_multiple_variantcallers [d] = .ok out ∧
      out.length = cs.length ∧
      out = cs.map (fun caller => [expand_item d (.list cs) caller]) ∧
      (∀ caller ∈ cs,
        alg_entry (expand_item d (.list cs) caller) "orig_variantcaller" =
          some (.list cs) ∧
        alg_entry (expand_item d (.list cs) caller) "variantcaller" = some caller) ∧
      (∀ (v : List JVal) (i j : Nat), i ≠ j → (out.set i v)[j]? = out[j]?) := by
  have hne : cs ≠ [] := by
    intro h
    subst h
    simp at hn
  refine ⟨_, handle_multi_list_eval hc ha hv hne, by simp, rfl, ?_, ?_⟩
  · intro caller _
    exact ⟨alg_entry_expand_item_orig _ _ hc ha, alg_entry_expand_item_vc _ _ hc ha⟩
  · intro v i j hij
    exact List.getElem?_set_ne hij

/-- Witness for C2 at the concrete two-caller sample. -/
theorem C2_per_sample_caller_expansion_witness :
    ∃ out : List (List JVal),
      handle_multiple_variantcallers
        [.dict [("config", .dict [("algorithm",
           .dict [("variantcaller", .list [.s "freebayes", .s "gatk"])])])]] = .ok out ∧
      out.length = ([JVal.s "freebayes", .s "gatk"] : List JVal).length ∧
      out = ([JVal.s "freebayes", .s "gatk"] : List JVal).map (fun caller =>
        [expand_item (.dict [("config", .dict [("algorithm",
           .dict [("variantcaller", .list [.s "freebayes", .s "gatk"])])])])
          (.list [.s "freebayes", .s "gatk"]) caller]) ∧
      (∀ caller ∈ ([JVal.s "freebayes", .s "gatk"] : List JVal),
        alg_entry (expand_item (.dict [("config", .dict [("algorithm",
            .dict [("variantcaller", .list [.s "freebayes", .s "gatk"])])])])
            (.list [.s "freebayes", .s "gatk"]) caller) "orig_variantcaller" =
          some (.list [.s "freebayes", .s "gatk"]) ∧
        alg_entry (expand_item (.dict [("config", .dict [("algorithm",
            .dict [("variantcaller", .list [.s "freebayes", .s "gatk"])])])])
            (.list [.s "freebayes", .s "gatk"]) caller) "variantcaller" = some caller) ∧
      (∀ (v : List JVal) (i j : Nat), i ≠ j → (out.set i v)[j]? = out[j]?) :=
  C2_per_sample_caller_expansion
    (.dict [("config", .dict [("algorithm",
       .dict [("variantcaller", .list [.s "freebayes", .s "gatk"])])])])
    (.dict [("algorithm", .dict [("variantcaller", .list [.s "freebayes", .s "gatk"])])])
    [("variantcaller", .list [.s "freebayes", .s "gatk"])]
    [.s "freebayes", .s "gatk"]
    (by decide) (by decide) (by decide) (by decide)

/-- C4 counterexample: a sample whose caller configuration field is absent is
NOT excluded — expansion returns one work item (the default-caller sample),
not zero. -/
theorem C4_counterexample_absent_defaults :
    handle_multiple_variantcallers [sampleNoVC] = .ok [[sampleNoVC]] ∧
    ¬ handle_multiple_variantcallers [sampleNoVC] = .ok [] := by decide

/-- C4 (amended): for every sample whose caller configuration field is
present but empty (explicitly None or an empty sequence),
`handle_multiple_variantcallers` returns zero work items; a sample with no
caller key at all instead falls back to the default identifier and is not
excluded. -/
theorem C4_empty_caller_zero_items (d c : JVal) (alg : List (String × JVal)) (v : JVal)
    (hc : d.lookup "config" = some c)
    (ha : c.lookup "algorithm" = some (.dict alg))
    (hv : alg.lookup "variantcaller" = some v)
    (hempty : v = .null ∨ v = .list []) :
    handle_multiple_variantcallers [d] = .ok [] := by
  have hv2 : (JVal.dict alg).lookup "variantcaller" = some v := by
    simpa [JVal.lookup] using hv
  have hgv : get_variantcaller d = .ok v := by
    simp [get_variantcaller, pyGetKey_of_lookup hc, pyGetKey_of_lookup ha, ok_bind,
          pyGetD_of_lookup _ hv2]
  rcases hempty with rfl | rfl <;>
    simp [handle_multiple_variantcallers, hgv, ok_bind, JVal.truthy, py_pure_eq_ok]

/-- Witness for C4 (amended) at the explicit-None sample. -/
theorem C4_empty_caller_zero_items_witness :
    handle_multiple_variantcallers [sampleNullVC] = .ok [] :=
  C4_empty_caller_zero_items sampleNullVC
    (.dict [("algorithm", .dict [("variantcaller", .null)])])
    [("variantcaller", .null)] .null (by decide) (by decide) (by decide) (Or.inl rfl)

/-- C10: for a sample whose configuration block has no `variantcaller` key,
`get_variantcaller` returns the default "gatk"; expansion emits exactly one
work item (the sample itself, not excluded); the dispatcher resolution step
resolves the "gatk" registry entry; and a full dispatch invokes the "gatk"
backend. -/
theorem C10_absent_caller_defaults_to_gatk (impl : CallerImpls) (fs : FS) (d c gr : JVal)
    (alg : List (String × JVal)) (sr var : JVal) (bam : String) (reg : JVal) (out : String)
    (hc : d.lookup "config" = some c)
    (ha : c.lookup "algorithm" = some (.dict alg))
    (hv : alg.lookup "variantcaller" = none)
    (hs : d.lookup "sam_ref" = some sr)
    (hw : d.lookup "work_bam" = some (.s bam))
    (hg : d.lookup "genome_resources" = some gr)
    (hgv : gr.lookup "variation" = some var)
    (hph : alg.lookup "phasing" = none)
    (hfs : fs.pexists out = false) :
    get_variantcaller d = .ok (.s "gatk") ∧
    handle_multiple_variantcallers [d] = .ok [[d]] ∧
    resolve_caller impl (.dict alg) = .ok ("gatk", impl.unified_genotyper) ∧
    Effect.callerRun "gatk" ∈ ((variantcall_sample impl fs d reg (some out)).run).2 := by
  have hvc : get_variantcaller d = .ok (.s "gatk") := by
    simp [get_variantcaller, pyGetKey_of_lookup hc, pyGetKey_of_lookup ha, ok_bind,
          pyGetD_of_absent _ hv]
  have hres : resolve_caller impl (.dict alg) = .ok ("gatk", impl.unified_genotyper) := by
    simp [resolve_caller, pyGetD_of_absent _ hv, ok_bind, get_variantcallers, List.lookup]
  have hphd : pyGetD (.dict alg) "phasing" (.b false) = .ok (.b false) :=
    pyGetD_of_absent _ hph
  obtain ⟨kvs, hdeq⟩ := lookup_some_dict hc
  have hrun := variantcall_sample_recompute reg hdeq (Or.inl hfs) hs hc ha hres hw hg hgv
    hphd (by decide)
  refine ⟨hvc, ?_, hres, ?_⟩
  · simp [handle_multiple_variantcallers, hvc, ok_bind, py_pure_eq_ok]
  · rw [hrun]
    simp

/-- Witness for C10 at the concrete default-caller sample. -/
theorem C10_absent_caller_defaults_to_gatk_witness :
    get_variantcaller sampleFull = .ok (.s "gatk") ∧
    handle_multiple_variantcallers [sampleFull] = .ok [[sampleFull]] ∧
    resolve_caller implX (.dict []) = .ok ("gatk", implX.unified_genotyper) ∧
    Effect.callerRun "gatk" ∈
      ((variantcall_sample implX fsNone sampleFull .null (some "w/g/S.vcf.gz")).run).2 :=
  C10_absent_caller_defaults_to_gatk implX fsNone sampleFull
    (.dict [("algorithm", .dict [])]) (.dict [("variation", .dict [])]) [] (.s "ref.fa")
    (.dict []) "A.bam" .null "w/g/S.vcf.gz"
    (by decide) (by decide) (by decide) (by decide) (by decide) (by decide) (by decide)
    (by decide) (by decide)

/-- C8: a work item whose configured caller identifier has no registry
mapping, with a not-yet-existing target path, makes the dispatcher fail with
`KeyError` (the unknown-caller error), and the failure happens before any
registered caller function is invoked: the recorded trace holds only the
directory creation. -/
theorem C8_unknown_caller_fails_before_call (impl : CallerImpls) (fs : FS) (d c : JVal)
    (alg : List (String × JVal)) (sr : JVal) (nm : String) (reg : JVal) (out : String)
    (hc : d.lookup "config" = some c)
    (ha : c.lookup "algorithm" = some (.dict alg))
    (hv : alg.lookup "variantcaller" = some (.s nm))
    (hreg : (get_variantcallers impl).lookup nm = none)
    (hs : d.lookup "sam_ref" = some sr)
    (hfs : fs.pexists out = false) :
    (variantcall_sample impl fs d reg (some out)).run =
      (.error .keyError, [.makedir (dirname out)]) ∧
    ∀ n, Effect.callerRun n ∉ ((variantcall_sample impl fs d reg (some out)).run).2 := by
  have hv2 : (JVal.dict alg).lookup "variantcaller" = some (.s nm) := by
    simpa [JVal.lookup] using hv
  have hres : resolve_caller impl (.dict alg) = .error .keyError := by
    simp [resolve_caller, pyGetD_of_lookup _ hv2, ok_bind, hreg]
  have hmain := variantcall_sample_resolve_error reg (Or.inl hfs) hs hc ha hres
  refine ⟨hmain, ?_⟩
  intro n
  rw [hmain]
  simp

/-- Witness for C8 with the unregistered identifier "bogus". -/
theorem C8_unknown_caller_fails_before_call_witness :
    (variantcall_sample implX fsNone
        (.dict [("sam_ref", .s "ref.fa"),
                ("config", .dict [("algorithm", .dict [("variantcaller", .s "bogus")])])])
        .null (some "w/g/S.vcf.gz")).run =
      (.error .keyError, [.makedir "w/g"]) ∧
    ∀ n, Effect.callerRun n ∉ ((variantcall_sample implX fsNone
        (.dict [("sam_ref", .s "ref.fa"),
                ("config", .dict [("algorithm", .dict [("variantcaller", .s "bogus")])])])
        .null (some "w/g/S.vcf.gz")).run).2 :=
  C8_unknown_caller_fails_before_call implX fsNone
    (.dict [("sam_ref", .s "ref.fa"),
            ("config", .dict [("algorithm", .dict [("variantcaller", .s "bogus")])])])
    (.dict [("algorithm", .dict [("variantcaller", .s "bogus")])])
    [("variantcaller", .s "bogus")] (.s "ref.fa") "bogus" .null "w/g/S.vcf.gz"
    (by decide) (by decide) (by decide) rfl (by decide) (by decide)

/-- C3 (code-bug exhibit): the claim says a target path that exists as a
symbolic reference is skipped, but with the path present only as a dangling
symbolic reference (`os.path.lexists` true, `os.path.exists` false) the
dispatcher recomputes — directory creation, caller invocation and re-linking
all happen — because line 138 joins the two existence tests with `or`, which
makes the `lexists` test unreachable dead code (on a real filesystem `exists`
implies `lexists`).  When the path exists as a regular file (both tests true)
the dispatcher does skip, performing no effect. -/
theorem C3_dangling_symlink_recomputes :
    fsDangling.plexists "work/gatk/S.vcf.gz" = true ∧
    ((variantcall_sample implX fsDangling sampleFull .null
        (some "work/gatk/S.vcf.gz")).run).2 =
      [.makedir "work/gatk", .callerRun "gatk",
       .symlink "work/gatk/S-raw.vcf.gz" "work/gatk/S.vcf.gz"] ∧
    ((variantcall_sample implX fsAll sampleFull .null
        (some "work/gatk/S.vcf.gz")).run).2 = [] := by decide

/-- C5: for a work item with a real (non-sentinel) region descriptor whose
deterministic final output path already exists: a non-batch-driver sample
(metadata phenotype not in the driver list) yields the output path with an
empty sub-region work list, while a batch-driver (tumor) sample yields the
output path together with a one-element (region, region-scoped path) work
list, forcing recomputation. -/
theorem C5_region_split_planner (ext fk : String) (dfn : JVal → Py JVal)
    (fs : FS) (data : JVal) (rest : List JVal) (c nm wd sub : String) (dv : JVal)
    (hr : data.lookup "region" = some (.list (.s c :: rest)))
    (hc1 : c ≠ "nochrom") (hc2 : c ≠ "noanalysis")
    (hgrp : data.lookup "group" = none)
    (hdesc : data.lookup "description" = some (.s nm))
    (hdirs : data.lookup "dirs" = some dv)
    (hwork : dv.lookup "work" = some (.s wd))
    (hsub : dfn data = .ok (.s sub))
    (hex : fs.file_exists (wd ++ "/" ++ sub ++ "/" ++ nm ++ ext) = true) :
    (get_in data ["metadata", "phenotype"] ≠ some (.s "tumor") →
      split_by_ready_regions ext fk dfn fs data =
        .ok (some (wd ++ "/" ++ sub ++ "/" ++ nm ++ ext), [])) ∧
    (get_in data ["metadata", "phenotype"] = some (.s "tumor") →
      split_by_ready_regions ext fk dfn fs data =
        .ok (some (wd ++ "/" ++ sub ++ "/" ++ nm ++ ext),
             [(.list (.s c :: rest),
               wd ++ "/" ++ sub ++ "/" ++ c ++ "/" ++ nm ++ "-" ++
                 to_safestr (.list (.s c :: rest)) ++ ext)])) := by
  constructor
  · intro hphen
    have hnotdrv : ¬ ((get_in data ["metadata", "phenotype"]).getD .null ∈ batch_drivers) := by
      intro hmem
      simp [batch_drivers] at hmem
      cases hgi : get_in data ["metadata", "phenotype"] with
      | none => rw [hgi] at hmem; simp [Option.getD] at hmem
      | some x =>
          rw [hgi] at hmem
          simp [Option.getD] at hmem
          exact hphen (by rw [hgi, hmem])
    simp [split_by_ready_regions, hr, pyIndex, hc1, hc2, hgrp,
          pyGetKey_of_lookup hdesc, pyGetKey_of_lookup hdirs, pyGetKey_of_lookup hwork,
          hsub, pyAsStr, ok_bind, py_pure_eq_ok, pjoin, JVal.pystr, hex, hnotdrv]
  · intro hphen
    have hdrv : (get_in data ["metadata", "phenotype"]).getD .null ∈ batch_drivers := by
      rw [hphen]
      simp [batch_drivers, Option.getD]
    simp [split_by_ready_regions, hr, pyIndex, hc1, hc2, hgrp,
          pyGetKey_of_lookup hdesc, pyGetKey_of_lookup hdirs, pyGetKey_of_lookup hwork,
          hsub, pyAsStr, ok_bind, py_pure_eq_ok, pjoin, JVal.pystr, hex, hdrv]

/-- A normal (non-driver) sample with an existing output for the C5 witness. -/
def sampleNormalRegion : JVal :=
  .dict [("description", .s "S1"),
         ("region", .list [.s "chr1", .s "10", .s "20"]),
         ("dirs", .dict [("work", .s "wd")]),
         ("config", .dict [("algorithm", .dict [("variantcaller", .s "gatk")])])]

/-- A tumor batch-driver sample with an existing output for the C5 witness. -/
def sampleTumorRegion : JVal :=
  .dict [("description", .s "S1"),
         ("region", .list [.s "chr1", .s "10", .s "20"]),
         ("dirs", .dict [("work", .s "wd")]),
         ("config", .dict [("algorithm", .dict [("variantcaller", .s "gatk")])]),
         ("metadata", .dict [("phenotype", .s "tumor")])]

/-- Witness for C5: at a non-driver sample the planner skips; at the tumor
sample with the same existing path it forces a sub-region split. -/
theorem C5_region_split_planner_witness :
    split_by_ready_regions ".vcf.gz" "work_bam" get_variantcaller fsAll
        sampleNormalRegion = .ok (some "wd/gatk/S1.vcf.gz", []) ∧
    split_by_ready_regions ".vcf.gz" "work_bam" get_variantcaller fsAll
        sampleTumorRegion =
      .ok (some "wd/gatk/S1.vcf.gz",
           [(.list [.s "chr1", .s "10", .s "20"], "wd/gatk/chr1/S1-chr1_10_20.vcf.gz")]) :=
  ⟨(C5_region_split_planner ".vcf.gz" "work_bam" get_variantcaller fsAll
      sampleNormalRegion [.s "10", .s "20"] "chr1" "S1" "wd" "gatk"
      (.dict [("work", .s "wd")]) (by decide) (by decide) (by decide) (by decide)
      (by decide) (by decide) (by decide) (by decide) rfl).1 (by decide),
   (C5_region_split_planner ".vcf.gz" "work_bam" get_variantcaller fsAll
      sampleTumorRegion [.s "10", .s "20"] "chr1" "S1" "wd" "gatk"
      (.dict [("work", .s "wd")]) (by decide) (by decide) (by decide) (by decide)
      (by decide) (by decide) (by decide) (by decide) rfl).2 (by decide)⟩

/-- A pre-combined record that also (implicitly) has a caller: its "combine"
directive's first key ("work_bam") is present on the record, but the caller
configuration is absent, so expansion defaults to "gatk". -/
def preCombinedDefault : JVal :=
  .dict [("combine", .dict [("work_bam", .dict [("out", .s "A.bam")])]),
         ("work_bam", .s "A.bam"),
         ("config", .dict [("algorithm", .dict [])])]

/-- A pre-combined record whose caller configuration is explicitly None. -/
def preCombinedNoCaller : JVal :=
  .dict [("combine", .dict [("work_bam", .dict [("out", .s "A.bam")])]),
         ("work_bam", .s "A.bam"),
         ("config", .dict [("algorithm", .dict [("variantcaller", .null)])])]

/-- C7 counterexample: a sample carrying a "combine" directive whose first
key is present directly on the record is nonetheless submitted as calling
work (the routing loop runs caller expansion FIRST, and the absent caller
configuration defaults to "gatk"); it never reaches the grouping path. -/
theorem C7_counterexample_combine_sample_expanded :
    route_samples [[preCombinedDefault]] = .ok ([[preCombinedDefault]], [], []) := by
  decide

theorem route_one_grouped {d comb w : JVal} {k : String}
    (hexp : handle_multiple_variantcallers [d] = .ok [])
    (hcomb : d.lookup "combine" = some comb)
    (hfirst : pyFirstKey comb = .ok k)
    (hin : d.lookup k = some w) :
    route_one [d] = .ok (.grouped d) := by
  simp [route_one, hexp, ok_bind, pyHead, pyContains_of_lookup hcomb,
        pyContains_of_lookup hin, pyGetKey_of_lookup hcomb, hfirst, py_pure_eq_ok]

/-- C7 (amended): for every input sample that is a singleton group, whose
caller expansion yields no work items (caller configuration explicitly
empty), and whose "combine" directive's first key is present directly on the
record, the routing loop of `parallel_variantcall_region` appends the record
to the grouping path (`to_group`) and adds nothing for it to the calling work
or extras, wherever it arrives in the input list. -/
theorem C7_precombined_routed_to_grouping (samples : List (List JVal))
    (p e : List (List JVal)) (g : List JVal) (d comb w : JVal) (k : String)
    (hprev : route_samples samples = .ok (p, e, g))
    (hexp : handle_multiple_variantcallers [d] = .ok [])
    (hcomb : d.lookup "combine" = some comb)
    (hfirst : pyFirstKey comb = .ok k)
    (hin : d.lookup k = some w) :
    route_samples (samples ++ [[d]]) = .ok (p, e, g ++ [d]) := by
  have hone : route_one [d] = .ok (.grouped d) :=
    route_one_grouped hexp hcomb hfirst hin
  induction samples generalizing p e g with
  | nil =>
      simp [route_samples] at hprev
      obtain ⟨hp, he, hg⟩ := hprev
      subst hp
      subst he
      subst hg
      simp [route_samples, hone, ok_bind, py_pure_eq_ok]
  | cons x xs ih =>
      rw [List.cons_append]
      simp only [route_samples] at hprev ⊢
      cases hx : route_one x with
      | error er =>
          simp only [hx, error_bind] at hprev
          exact absurd hprev (by simp)
      | ok r =>
          simp only [hx, ok_bind] at hprev ⊢
          cases hxs : route_samples xs with
          | error er =>
              simp only [hxs, error_bind] at hprev
              exact absurd hprev (by simp)
          | ok rest =>
              obtain ⟨p', e', g'⟩ := rest
              simp only [hxs, ok_bind] at hprev
              have hxs2 := ih p' e' g' hxs
              simp only [hxs2, ok_bind]
              cases r with
              | proc adds =>
                  simp [py_pure_eq_ok] at hprev ⊢
                  obtain ⟨hp, he, hg⟩ := hprev
                  subst hp; subst he; subst hg
                  exact ⟨rfl, rfl, rfl⟩
              | grouped d0 =>
                  simp [py_pure_eq_ok] at hprev ⊢
                  obtain ⟨hp, he, hg⟩ := hprev
                  subst hp; subst he; subst hg
                  exact ⟨rfl, rfl, rfl⟩
              | extra =>
                  simp [py_pure_eq_ok] at hprev ⊢
                  obtain ⟨hp, he, hg⟩ := hprev
                  subst hp; subst he; subst hg
                  exact ⟨rfl, rfl, rfl⟩

/-- Witness for C7 (amended): the explicitly-empty-caller pre-combined record
is routed to the grouping path. -/
theorem C7_precombined_routed_to_grouping_witness :
    route_samples ([] ++ [[preCombinedNoCaller]]) = .ok ([], [], [] ++ [preCombinedNoCaller]) :=
  C7_precombined_routed_to_grouping [] [] [] [] preCombinedNoCaller
    (.dict [("work_bam", .dict [("out", .s "A.bam")])]) (.s "A.bam") "work_bam"
    (by decide) (by decide) (by decide) (by decide) (by decide)

theorem py_bind_ok_inv {α β : Type} {m : Py α} {f : α → Py β} {b : β}
    (h : (m >>= f) = .ok b) : ∃ a, m = .ok a ∧ f a = .ok b := by
  cases m with
  | ok a =>
      rw [ok_bind] at h
      exact ⟨a, rfl, h⟩
  | error e =>
      rw [error_bind] at h
      exact absurd h (by simp)

theorem summary_call_dict {x s : JVal} (h : summary_call x = .ok s) :
    ∃ kvs, x = .dict kvs := by
  cases x with
  | dict kvs => exact ⟨kvs, rfl⟩
  | null => simp [summary_call, get_variantcaller, pyGetKey, error_bind] at h
  | b v => simp [summary_call, get_variantcaller, pyGetKey, error_bind] at h
  | i v => simp [summary_call, get_variantcaller, pyGetKey, error_bind] at h
  | s v => simp [summary_call, get_variantcaller, pyGetKey, error_bind] at h
  | list vs => simp [summary_call, get_variantcaller, pyGetKey, error_bind] at h

theorem keyed_const_eval {items : List JVal} {k : JVal}
    (h : ∀ d ∈ items, bam_key d = .ok k) :
    pyMapM (fun x => do
        let x0 ← pyHead x
        let kk ← bam_key x0
        pure (kk, x0)) (items.map fun d => [d]) =
      .ok (items.map fun d => (k, d)) := by
  have h1 : ∀ a ∈ items.map (fun d => [d]), (fun (x : List JVal) => do
      let x0 ← pyHead x
      let kk ← bam_key x0
      pure ((kk, x0) : JVal × JVal)) a = .ok ((fun x => (k, x.headD .null)) a) := by
    intro a ha
    obtain ⟨d, hd, rfl⟩ := List.mem_map.mp ha
    simp [pyHead, ok_bind, h d hd, py_pure_eq_ok]
  exact (pyMapM_ok_of_forall h1).trans (by simp [List.map_map])

theorem combine_group_sorted_eval {k h0 : JVal} {t : List JVal} {sf : JVal → JVal}
    {ixf : JVal → Nat} {hcv : JVal} {halg : List (String × JVal)} {L : List JVal}
    (hsum : ∀ x ∈ h0 :: t, summary_call x = .ok (sf x))
    (hfc : h0.lookup "config" = some hcv)
    (hfa : hcv.lookup "algorithm" = some (.dict halg))
    (horig : halg.lookup "orig_variantcaller" = some (.list L))
    (hidx : ∀ x ∈ h0 :: t, (do
        let vc ← pyGetKey (sf x) "variantcaller"
        pyListIndex (.list L) vc) = .ok (ixf (sf x)))
    (hne : t ≠ []) :
    combine_group (k, h0, t) =
      .ok [h0.setKey "variants"
        (.list (pySortedByKey (((h0 :: t).map sf).zip
          (((h0 :: t).map sf).map ixf))))] := by
  have hmem : BamGroup.members (k, h0, t) = h0 :: t := rfl
  have hready : pyMapM summary_call (BamGroup.members (k, h0, t)) =
      .ok ((h0 :: t).map sf) := by
    rw [hmem]
    exact pyMapM_ok_of_forall hsum
  have hlen : 1 < ((h0 :: t).map sf).length := by
    simp [List.length_map]
    exact List.length_pos.mpr hne
  have hcont : pyContains (.dict halg) "orig_variantcaller" = .ok true := by
    simp [pyContains, JVal.lookup, horig]
  have hkeysM : pyMapM (fun x => do
      let vc ← pyGetKey x "variantcaller"
      pyListIndex (.list L) vc) ((h0 :: t).map sf) =
      .ok (((h0 :: t).map sf).map ixf) := by
    apply pyMapM_ok_of_forall
    intro r hr
    obtain ⟨x, hx, rfl⟩ := List.mem_map.mp hr
    exact hidx x hx
  obtain ⟨kvs, hdeq⟩ := lookup_some_dict hfc
  have hset : pySetIn h0 [] "variants"
      (.list (pySortedByKey (((h0 :: t).map sf).zip (((h0 :: t).map sf).map ixf)))) =
      .ok (h0.setKey "variants"
        (.list (pySortedByKey (((h0 :: t).map sf).zip (((h0 :: t).map sf).map ixf))))) := by
    rw [hdeq]
    exact pySetIn_nil _ _
  have horig2 : pyGetKey (.dict halg) "orig_variantcaller" = .ok (.list L) :=
    pyGetKey_of_lookup (by simpa [JVal.lookup] using horig)
  simp only [combine_group]
  rw [hready, ok_bind, if_pos hlen, pyGetKey_of_lookup hfc, ok_bind,
      pyGetKey_of_lookup hfa, ok_bind, hcont, ok_bind, if_pos rfl, horig2, ok_bind,
      hkeysM, ok_bind, hset, ok_bind, py_pure_eq_ok]

theorem combine_group_single_eval {k h0 : JVal} {sf : JVal → JVal}
    (hsum : summary_call h0 = .ok (sf h0)) :
    combine_group (k, h0, []) = .ok [h0.setKey "variants" (.list [sf h0])] := by
  have hready : pyMapM summary_call (BamGroup.members (k, h0, [])) = .ok [sf h0] := by
    simp [BamGroup.members, pyMapM, hsum, ok_bind, py_pure_eq_ok]
  obtain ⟨kvs, hdeq⟩ := summary_call_dict hsum
  have hset : pySetIn h0 [] "variants" (.list [sf h0]) =
      .ok (h0.setKey "variants" (.list [sf h0])) := by
    rw [hdeq]
    exact pySetIn_nil _ _
  simp only [combine_group]
  rw [hready, ok_bind, if_neg (by simp), hset, ok_bind, py_pure_eq_ok]

theorem combine_group_noorig_eval {k h0 : JVal} {t : List JVal} {sf : JVal → JVal}
    {hcv : JVal} {halg : List (String × JVal)}
    (hsum : ∀ x ∈ h0 :: t, summary_call x = .ok (sf x))
    (hfc : h0.lookup "config" = some hcv)
    (hfa : hcv.lookup "algorithm" = some (.dict halg))
    (hnone : halg.lookup "orig_variantcaller" = none) :
    combine_group (k, h0, t) = .ok [h0.setKey "variants" (.list ((h0 :: t).map sf))] := by
  have hready : pyMapM summary_call (BamGroup.members (k, h0, t)) =
      .ok ((h0 :: t).map sf) := pyMapM_ok_of_forall hsum
  have hcont : pyContains (.dict halg) "orig_variantcaller" = .ok false := by
    simp [pyContains, JVal.lookup, hnone]
  obtain ⟨kvs, hdeq⟩ := lookup_some_dict hfc
  have hset : pySetIn h0 [] "variants" (.list ((h0 :: t).map sf)) =
      .ok (h0.setKey "variants" (.list ((h0 :: t).map sf))) := by
    rw [hdeq]
    exact pySetIn_nil _ _
  by_cases hl : 1 < ((h0 :: t).map sf).length
  · simp only [combine_group]
    rw [hready, ok_bind, if_pos hl, pyGetKey_of_lookup hfc, ok_bind,
        pyGetKey_of_lookup hfa, ok_bind, hcont, ok_bind, if_neg (by simp), hset, ok_bind, py_pure_eq_ok]
  · simp only [combine_group]
    rw [hready, ok_bind, if_neg hl, hset, ok_bind, py_pure_eq_ok]

theorem combine_const_key {h0 k : JVal} {t : List JVal} {R : List JVal}
    (hkeys : ∀ x ∈ h0 :: t, bam_key x = .ok k)
    (hgrp : combine_group (k, h0, t) = .ok R) :
    combine_multiple_callers ((h0 :: t).map fun d => [d]) = .ok [R] := by
  simp only [combine_multiple_callers]
  rw [keyed_const_eval hkeys, ok_bind]
  have hgp : groupPairs ((h0 :: t).map fun d => (k, d)) = [(k, h0, t)] := by
    rw [List.map_cons]
    rw [groupPairs_of_const_key rfl (by
      intro q hq
      obtain ⟨x, _, rfl⟩ := List.mem_map.mp hq
      rfl)]
    simp [List.map_map]
  rw [hgp]
  simp [pyMapM, hgrp, ok_bind, py_pure_eq_ok]

/-- C1: for every group of post-calling results sharing one alignment
reference: (a) when the group has more than one member and the first member's
configuration records the original multi-caller request order, the combiner
emits exactly one record whose `variants` sequence is a permutation of the
group's summary entries arranged in nondecreasing order of each entry's
caller index within that original order — regardless of the arrival order of
the members; (b) a one-member group keeps its single entry; (c) when the
order field is absent the `variants` sequence is in arrival order. -/
theorem C1_multi_caller_combiner_order :
    (∀ (h0 : JVal) (t : List JVal) (k : JVal) (sf : JVal → JVal) (ixf : JVal → Nat)
       (hcv : JVal) (halg : List (String × JVal)) (L : List JVal),
      (∀ x ∈ h0 :: t, bam_key x = .ok k) →
      (∀ x ∈ h0 :: t, summary_call x = .ok (sf x)) →
      h0.lookup "config" = some hcv →
      hcv.lookup "algorithm" = some (.dict halg) →
      halg.lookup "orig_variantcaller" = some (.list L) →
      (∀ x ∈ h0 :: t, (do
          let vc ← pyGetKey (sf x) "variantcaller"
          pyListIndex (.list L) vc) = .ok (ixf (sf x))) →
      t ≠ [] →
      ∃ vs : List JVal,
        combine_multiple_callers ((h0 :: t).map fun d => [d]) =
          .ok [[h0.setKey "variants" (.list vs)]] ∧
        vs.Perm ((h0 :: t).map sf) ∧
        ∃ ps : List (JVal × Nat),
          ps.Perm (((h0 :: t).map sf).zip (((h0 :: t).map sf).map ixf)) ∧
          vs = ps.map Prod.fst ∧ List.Pairwise keyLE ps) ∧
    (∀ (h0 k : JVal) (sf : JVal → JVal),
      bam_key h0 = .ok k → summary_call h0 = .ok (sf h0) →
      combine_multiple_callers [[h0]] =
        .ok [[h0.setKey "variants" (.list [sf h0])]]) ∧
    (∀ (h0 : JVal) (t : List JVal) (k : JVal) (sf : JVal → JVal)
       (hcv : JVal) (halg : List (String × JVal)),
      (∀ x ∈ h0 :: t, bam_key x = .ok k) →
      (∀ x ∈ h0 :: t, summary_call x = .ok (sf x)) →
      h0.lookup "config" = some hcv →
      hcv.lookup "algorithm" = some (.dict halg) →
      halg.lookup "orig_variantcaller" = none →
      combine_multiple_callers ((h0 :: t).map fun d => [d]) =
        .ok [[h0.setKey "variants" (.list ((h0 :: t).map sf))]]) := by
  refine ⟨?_, ?_, ?_⟩
  · intro h0 t k sf ixf hcv halg L hkeys hsum hfc hfa horig hidx hne
    refine ⟨pySortedByKey (((h0 :: t).map sf).zip (((h0 :: t).map sf).map ixf)), ?_, ?_, ?_⟩
    · exact combine_const_key hkeys
        (combine_group_sorted_eval hsum hfc hfa horig hidx hne)
    · have hperm := pySortedByKey_perm (((h0 :: t).map sf).zip (((h0 :: t).map sf).map ixf))
      have hfst : (((h0 :: t).map sf).zip (((h0 :: t).map sf).map ixf)).map Prod.fst =
          (h0 :: t).map sf :=
        List.map_fst_zip _ _ (by simp)
      rw [hfst] at hperm
      exact hperm
    · exact ⟨List.insertionSort keyLE (((h0 :: t).map sf).zip (((h0 :: t).map sf).map ixf)),
        List.perm_insertionSort _ _, rfl, pySortedByKey_sorted _⟩
  · intro h0 k sf hkey hsum
    have h := combine_const_key (t := [])
      (fun x hx => by
        rcases List.mem_singleton.mp hx with rfl
        exact hkey)
      (combine_group_single_eval hsum)
    simpa using h
  · intro h0 t k sf hcv halg hkeys hsum hfc hfa hnone
    exact combine_const_key hkeys (combine_group_noorig_eval hsum hfc hfa hnone)

/-- One post-calling result for caller `c`, sharing alignment reference
`A.bam` and recording the original request order gatk, freebayes, samtools. -/
def exCallerItem (c : String) : JVal :=
  .dict [("work_bam", .s "A.bam"),
         ("config", .dict [("algorithm", .dict
            [("variantcaller", .s c),
             ("orig_variantcaller", .list [.s "gatk", .s "freebayes", .s "samtools"])])]),
         ("vrn_file", .s (c ++ ".vcf"))]

/-- Summary entry of a post-calling result, as a function of the record. -/
def exSummary : JVal → JVal := fun x =>
  .dict [("variantcaller", (alg_entry x "variantcaller").getD .null),
         ("vrn_file", x.getD "vrn_file"), ("validate", x.getD "validate")]

/-- Index of a summary entry's caller within the original request order
gatk, freebayes, samtools. -/
def exIdx : JVal → Nat := fun r =>
  match r.lookup "variantcaller" with
  | some (.s "gatk") => 0
  | some (.s "freebayes") => 1
  | some (.s "samtools") => 2
  | _ => 0

/-- Witness for C1: three work items sharing `A.bam` with callers arriving as
freebayes, gatk, samtools and recorded original order gatk, freebayes,
samtools; the emitted `variants` sequence is ordered gatk, freebayes,
samtools. -/
theorem C1_multi_caller_combiner_order_witness :
    (∃ vs : List JVal,
      combine_multiple_callers
          ((exCallerItem "freebayes" :: [exCallerItem "gatk", exCallerItem "samtools"]).map
            fun d => [d]) =
        .ok [[(exCallerItem "freebayes").setKey "variants" (.list vs)]] ∧
      vs.Perm ((exCallerItem "freebayes" ::
        [exCallerItem "gatk", exCallerItem "samtools"]).map exSummary) ∧
      ∃ ps : List (JVal × Nat),
        ps.Perm (((exCallerItem "freebayes" ::
            [exCallerItem "gatk", exCallerItem "samtools"]).map exSummary).zip
          (((exCallerItem "freebayes" ::
            [exCallerItem "gatk", exCallerItem "samtools"]).map exSummary).map exIdx)) ∧
        vs = ps.map Prod.fst ∧ List.Pairwise keyLE ps) ∧
    (combine_multiple_callers
        [[exCallerItem "freebayes"], [exCallerItem "gatk"], [exCallerItem "samtools"]]).map
      (fun out => out.map fun rec => rec.map fun f => (f.lookup "variants").getD .null) =
      .ok [[JVal.list
        [.dict [("variantcaller", .s "gatk"), ("vrn_file", .s "gatk.vcf"),
                ("validate", .null)],
         .dict [("variantcaller", .s "freebayes"), ("vrn_file", .s "freebayes.vcf"),
                ("validate", .null)],
         .dict [("variantcaller", .s "samtools"), ("vrn_file", .s "samtools.vcf"),
                ("validate", .null)]]]] :=
  ⟨C1_multi_caller_combiner_order.1 (exCallerItem "freebayes")
      [exCallerItem "gatk", exCallerItem "samtools"] (.s "A.bam") exSummary exIdx
      (.dict [("algorithm", .dict
        [("variantcaller", .s "freebayes"),
         ("orig_variantcaller", .list [.s "gatk", .s "freebayes", .s "samtools"])])])
      [("variantcaller", .s "freebayes"),
       ("orig_variantcaller", .list [.s "gatk", .s "freebayes", .s "samtools"])]
      [.s "gatk", .s "freebayes", .s "samtools"]
      (by decide) (by decide) (by decide) (by decide) (by decide) (by decide) (by decide),
   by decide⟩

theorem pySetIn_nil_inv {d v r : JVal} {k2 : String}
    (h : pySetIn d [] k2 v = .ok r) :
    (∃ kvs, d = .dict kvs) ∧ r = d.setKey k2 v := by
  cases d with
  | dict kvs =>
      refine ⟨⟨kvs, rfl⟩, ?_⟩
      simp [pySetIn] at h
      simp [JVal.setKey, ← h]
  | null => simp [pySetIn] at h
  | b y => simp [pySetIn] at h
  | i y => simp [pySetIn] at h
  | s y => simp [pySetIn] at h
  | list y => simp [pySetIn] at h

theorem keyed_inv {items : List JVal} {pairs : List (JVal × JVal)}
    (h : pyMapM (fun x => do
        let x0 ← pyHead x
        let kk ← bam_key x0
        pure (kk, x0)) (items.map fun d => [d]) = .ok pairs) :
    ∃ ks : List JVal,
      List.Forall₂ (fun d kk => bam_key d = .ok kk) items ks ∧ pairs = ks.zip items := by
  induction items generalizing pairs with
  | nil =>
      simp [pyMapM] at h
      exact ⟨[], List.Forall₂.nil, by simp [← h]⟩
  | cons d rest ih =>
      simp only [List.map_cons, pyMapM] at h
      obtain ⟨y, hy, h2⟩ := py_bind_ok_inv h
      obtain ⟨ys, hys, h3⟩ := py_bind_ok_inv h2
      have hp : pairs = y :: ys := by
        rw [py_pure_eq_ok] at h3
        exact (Except.ok.inj h3).symm
      simp only [pyHead, ok_bind] at hy
      obtain ⟨kk, hkk, hy2⟩ := py_bind_ok_inv hy
      have hyv : y = (kk, d) := by
        rw [py_pure_eq_ok] at hy2
        exact (Except.ok.inj hy2).symm
      obtain ⟨ks, hforall, hzip⟩ := ih hys
      exact ⟨kk :: ks, List.Forall₂.cons hkk hforall, by simp [hp, hyv, hzip]⟩

theorem combine_group_inv {g : BamGroup} {rec : List JVal}
    (h : combine_group g = .ok rec) :
    ∃ (summaries vs : List JVal) (kvs : List (String × JVal)),
      List.Forall₂ (fun m s => summary_call m = .ok s) (BamGroup.members g) summaries ∧
      g.2.1 = .dict kvs ∧
      rec = [g.2.1.setKey "variants" (.list vs)] ∧
      (g.2.1.setKey "variants" (.list vs)).lookup "variants" = some (.list vs) ∧
      vs.Perm summaries := by
  simp only [combine_group] at h
  obtain ⟨ready, hready, h2⟩ := py_bind_ok_inv h
  have hforall := pyMapM_eq_ok_iff.mp hready
  by_cases hl : ready.length > 1
  · rw [if_pos hl] at h2
    obtain ⟨cfg, hcfg, h3⟩ := py_bind_ok_inv h2
    obtain ⟨alg, halg, h4⟩ := py_bind_ok_inv h3
    obtain ⟨hasOrig, hho, h5⟩ := py_bind_ok_inv h4
    cases hasOrig with
    | true =>
        rw [if_pos rfl] at h5
        obtain ⟨orig, horig, h6⟩ := py_bind_ok_inv h5
        obtain ⟨keys, hkeys, h7⟩ := py_bind_ok_inv h6
        obtain ⟨fin, hfin, h8⟩ := py_bind_ok_inv h7
        obtain ⟨⟨kvs, hkvs⟩, hfeq⟩ := pySetIn_nil_inv hfin
        have hrec : rec = [fin] := by
          rw [py_pure_eq_ok] at h8
          exact (Except.ok.inj h8).symm
        have hklen : keys.length = ready.length :=
          ((pyMapM_eq_ok_iff.mp hkeys).length_eq).symm
        have hperm : (pySortedByKey (ready.zip keys)).Perm ready := by
          have hp := pySortedByKey_perm (ready.zip keys)
          rw [List.map_fst_zip _ _ (le_of_eq hklen.symm)] at hp
          exact hp
        refine ⟨ready, pySortedByKey (ready.zip keys), kvs, hforall, hkvs, ?_, ?_, hperm⟩
        · rw [hrec, hfeq]
        · rw [hkvs]
          exact lookup_setKey_self _ _ _
    | false =>
        rw [if_neg (by simp)] at h5
        obtain ⟨fin, hfin, h8⟩ := py_bind_ok_inv h5
        obtain ⟨⟨kvs, hkvs⟩, hfeq⟩ := pySetIn_nil_inv hfin
        have hrec : rec = [fin] := by
          rw [py_pure_eq_ok] at h8
          exact (Except.ok.inj h8).symm
        refine ⟨ready, ready, kvs, hforall, hkvs, ?_, ?_, List.Perm.refl _⟩
        · rw [hrec, hfeq]
        · rw [hkvs]
          exact lookup_setKey_self _ _ _
  · rw [if_neg hl] at h2
    obtain ⟨fin, hfin, h8⟩ := py_bind_ok_inv h2
    obtain ⟨⟨kvs, hkvs⟩, hfeq⟩ := pySetIn_nil_inv hfin
    have hrec : rec = [fin] := by
      rw [py_pure_eq_ok] at h8
      exact (Except.ok.inj h8).symm
    refine ⟨ready, ready, kvs, hforall, hkvs, ?_, ?_, List.Perm.refl _⟩
    · rw [hrec, hfeq]
    · rw [hkvs]
      exact lookup_setKey_self _ _ _

/-- C6: whenever the Multi-Caller Combiner succeeds, the number of emitted
grouped records equals the number of distinct alignment references among the
inputs (each input's reference resolved by `bam_key`: the
combine/work_bam/out chain when present, else the direct work_bam field); the
emitted records correspond one-to-one to the distinct references, and each
record's `variants` list holds exactly one summary entry per input sharing
that reference — no input is duplicated into another group or dropped. -/
theorem C6_grouping_invariant (items : List JVal) (out : List (List JVal))
    (hcomb : combine_multiple_callers (items.map fun d => [d]) = .ok out) :
    ∃ ks : List JVal,
      List.Forall₂ (fun d kk => bam_key d = .ok kk) items ks ∧
      out.length = ks.dedup.length ∧
      ∃ gks : List JVal,
        gks.Nodup ∧ (∀ kk, kk ∈ gks ↔ kk ∈ ks) ∧
        List.Forall₂ (fun rec kk =>
          ∃ (fin : JVal) (vs summaries : List JVal),
            rec = [fin] ∧ fin.lookup "variants" = some (.list vs) ∧
            List.Forall₂ (fun m s => summary_call m = .ok s)
              (((ks.zip items).filter (fun p => p.1 = kk)).map Prod.snd) summaries ∧
            vs.Perm summaries) out gks := by
  simp only [combine_multiple_callers] at hcomb
  obtain ⟨pairs, hkeyed, hrest⟩ := py_bind_ok_inv hcomb
  obtain ⟨ks, hks, rfl⟩ := keyed_inv hkeyed
  have hlenki : ks.length ≤ items.length := le_of_eq hks.length_eq.symm
  have hfst : (ks.zip items).map Prod.fst = ks := List.map_fst_zip _ _ hlenki
  have hf2 : List.Forall₂ (fun g rec => combine_group g = .ok rec)
      (groupPairs (ks.zip items)) out := pyMapM_eq_ok_iff.mp hrest
  have hlens : (groupPairs (ks.zip items)).length = out.length := hf2.length_eq
  refine ⟨ks, hks, ?_, groupKeys (groupPairs (ks.zip items)),
    groupKeys_groupPairs_nodup _, ?_, ?_⟩
  · rw [← hlens, length_groupPairs, hfst]
  · intro kk
    rw [mem_groupKeys_groupPairs, hfst]
  · rw [List.forall₂_iff_get]
    constructor
    · simp [groupKeys, hlens]
    · intro i h1 h2
      have hig : i < (groupPairs (ks.zip items)).length := by
        simpa [groupKeys] using h2
      have hgr := (List.forall₂_iff_get.mp hf2).2 i hig h1
      obtain ⟨summaries, vs, kvs, hsum, hdict, hrec, hlook, hperm⟩ :=
        combine_group_inv hgr
      have hmem : (groupPairs (ks.zip items)).get ⟨i, hig⟩ ∈ groupPairs (ks.zip items) :=
        List.get_mem _ _ hig
      have hmembers := members_of_mem_groupPairs hmem
      have hgk : (groupKeys (groupPairs (ks.zip items))).get ⟨i, h2⟩ =
          ((groupPairs (ks.zip items)).get ⟨i, hig⟩).1 := by
        simp [groupKeys]
      rw [hgk]
      refine ⟨((groupPairs (ks.zip items)).get ⟨i, hig⟩).2.1.setKey "variants" (.list vs),
        vs, summaries, hrec, hlook, ?_, hperm⟩
      rw [← hmembers]
      exact hsum

/-- C9: every record the Multi-Caller Combiner emits is the first group
member with only the `variants` attribute attached: every other field of the
representative is exactly the corresponding field of that first member. -/
theorem C9_representative_is_first_member (items : List JVal) (out : List (List JVal))
    (hcomb : combine_multiple_callers (items.map fun d => [d]) = .ok out) :
    ∃ ks : List JVal,
      List.Forall₂ (fun d kk => bam_key d = .ok kk) items ks ∧
      ∀ rec ∈ out, ∃ (x kk : JVal) (vs : List JVal),
        x ∈ items ∧ bam_key x = .ok kk ∧
        (((ks.zip items).filter (fun p => p.1 = kk)).map Prod.snd).head? = some x ∧
        rec = [x.setKey "variants" (.list vs)] ∧
        (∀ k2 : String, k2 ≠ "variants" →
          (x.setKey "variants" (.list vs)).lookup k2 = x.lookup k2) := by
  simp only [combine_multiple_callers] at hcomb
  obtain ⟨pairs, hkeyed, hrest⟩ := py_bind_ok_inv hcomb
  obtain ⟨ks, hks, rfl⟩ := keyed_inv hkeyed
  have hf2 : List.Forall₂ (fun g rec => combine_group g = .ok rec)
      (groupPairs (ks.zip items)) out := pyMapM_eq_ok_iff.mp hrest
  have hksflip : List.Forall₂ (fun kk d => bam_key d = .ok kk) ks items :=
    List.Forall₂.flip hks
  refine ⟨ks, hks, ?_⟩
  intro rec hrec
  obtain ⟨⟨i, hi⟩, rfl⟩ := List.mem_iff_get.mp hrec
  have hig : i < (groupPairs (ks.zip items)).length := by
    rw [hf2.length_eq]
    exact hi
  have hgr := (List.forall₂_iff_get.mp hf2).2 i hig hi
  obtain ⟨summaries, vs, kvs, hsum, hdict, hrec2, hlook, hperm⟩ := combine_group_inv hgr
  set g := (groupPairs (ks.zip items)).get ⟨i, hig⟩ with hgdef
  have hmem : g ∈ groupPairs (ks.zip items) := List.get_mem _ _ hig
  have hmembers := members_of_mem_groupPairs hmem
  have hhead : (((ks.zip items).filter (fun p => p.1 = g.1)).map Prod.snd).head? =
      some g.2.1 := by
    rw [← hmembers]
    rfl
  have hx : g.2.1 ∈ ((ks.zip items).filter (fun p => p.1 = g.1)).map Prod.snd := by
    rw [← hmembers]
    simp [BamGroup.members]
  obtain ⟨p, hpfilter, hpx⟩ := List.mem_map.mp hx
  have hpmem : p ∈ ks.zip items := List.mem_of_mem_filter hpfilter
  have hpkey : p.1 = g.1 := by
    have := List.of_mem_filter hpfilter
    simpa using this
  have hxitems : g.2.1 ∈ items := by
    rw [← hpx]
    exact (List.of_mem_zip hpmem).2
  have hbam : bam_key g.2.1 = .ok g.1 := by
    have hp2 : (p.1, p.2) ∈ ks.zip items := by
      simpa using hpmem
    have := List.forall₂_zip hksflip hp2
    rw [hpx, hpkey] at this
    exact this
  exact ⟨g.2.1, g.1, vs, hxitems, hbam, hhead, hrec2, fun k2 hk2 =>
    lookup_setKey_ne _ _ hk2⟩

/-- A post-calling result on a second, distinct alignment reference. -/
def exOtherItem : JVal :=
  .dict [("work_bam", .s "B.bam"),
         ("config", .dict [("algorithm", .dict [("variantcaller", .s "gatk")])]),
         ("vrn_file", .s "b.vcf")]

/-- A mixed input: two callers on `A.bam` and one on `B.bam`. -/
def exMixedInput : List JVal :=
  [exCallerItem "freebayes", exOtherItem, exCallerItem "gatk"]

/-- The combiner's output on the mixed input. -/
def exMixedOut : List (List JVal) :=
  match combine_multiple_callers (exMixedInput.map fun d => [d]) with
  | .ok out => out
  | .error _ => []

/-- Witness for C6 at the mixed two-reference input. -/
theorem C6_grouping_invariant_witness :
    ∃ ks : List JVal,
      List.Forall₂ (fun d kk => bam_key d = .ok kk) exMixedInput ks ∧
      exMixedOut.length = ks.dedup.length ∧
      ∃ gks : List JVal,
        gks.Nodup ∧ (∀ kk, kk ∈ gks ↔ kk ∈ ks) ∧
        List.Forall₂ (fun rec kk =>
          ∃ (fin : JVal) (vs summaries : List JVal),
            rec = [fin] ∧ fin.lookup "variants" = some (.list vs) ∧
            List.Forall₂ (fun m s => summary_call m = .ok s)
              (((ks.zip exMixedInput).filter (fun p => p.1 = kk)).map Prod.snd) summaries ∧
            vs.Perm summaries) exMixedOut gks :=
  C6_grouping_invariant exMixedInput exMixedOut (by decide)

/-- A second mixed input, arriving in a different order. -/
def exMixedInput2 : List JVal :=
  [exOtherItem, exCallerItem "samtools", exCallerItem "freebayes"]

/-- The combiner's output on the second mixed input. -/
def exMixedOut2 : List (List JVal) :=
  match combine_multiple_callers (exMixedInput2.map fun d => [d]) with
  | .ok out => out
  | .error _ => []

/-- Witness for C9 at the second mixed input. -/
theorem C9_representative_is_first_member_witness :
    ∃ ks : List JVal,
      List.Forall₂ (fun d kk => bam_key d = .ok kk) exMixedInput2 ks ∧
      ∀ rec ∈ exMixedOut2, ∃ (x kk : JVal) (vs : List JVal),
        x ∈ exMixedInput2 ∧ bam_key x = .ok kk ∧
        (((ks.zip exMixedInput2).filter (fun p => p.1 = kk)).map Prod.snd).head? = some x ∧
        rec = [x.setKey "variants" (.list vs)] ∧
        (∀ k2 : String, k2 ≠ "variants" →
          (x.setKey "variants" (.list vs)).lookup k2 = x.lookup k2) :=
  C9_representative_is_first_member exMixedInput2 exMixedOut2 (by decide)
